import Mathlib

/-!
# Verification of the case reconciliation and selection pipeline

Shallow embedding of the data-preparation scripts (`data_process.py`,
`fliter.py`) of the Scoring repository, together with proofs of the
spec's testable properties.

Modelling conventions:
* Python strings are `List Char`; the character classes `\w` and `\s`
  are modelled by their ASCII semantics (`isWordChar`, `isPySpace`).
* Python floats are modelled as `ℚ`; `round(x, 4)` is modelled by
  round-half-to-even on `x * 10^4` (`round4`).
* Python `None`-able JSON data is modelled by the inductive `JVal`.
* The global random source is modelled as an explicit state (`Rng`)
  threaded through the sampling functions.
-/

namespace Scoring

/-- ASCII model of Python's regex class `\s` (whitespace). -/
def isPySpace (c : Char) : Bool :=
  c = ' ' || c = '\t' || c = '\n' || c = '\r' || c = '\x0b' || c = '\x0c'

/-- ASCII model of Python's regex class `\w` (word characters). -/
def isWordChar (c : Char) : Bool :=
  c.isAlphanum || c = '_'

/-- `str.lower()` on a character list. -/
def pyLower (l : List Char) : List Char := l.map Char.toLower

/-- `str.strip()`: drop leading and trailing whitespace. -/
def pyStrip (l : List Char) : List Char :=
  ((l.dropWhile isPySpace).reverse.dropWhile isPySpace).reverse

/-- `re.sub(r'[^\w\s]', ' ', s)`: replace every non-word, non-space
character by a single space. -/
def subPunct (l : List Char) : List Char :=
  l.map (fun c => if isWordChar c || isPySpace c then c else ' ')

/-- Worker for `re.sub(r'\s+', ' ', s)`: the boolean flag records whether
the previous character belonged to a whitespace run. -/
def collapseAux : Bool → List Char → List Char
  | _, [] => []
  | prevSpace, c :: cs =>
    if isPySpace c then
      if prevSpace then collapseAux true cs else ' ' :: collapseAux true cs
    else c :: collapseAux false cs

/-- `re.sub(r'\s+', ' ', s)`: collapse every maximal whitespace run to a
single space. -/
def collapseWs (l : List Char) : List Char := collapseAux false l

/-- `normalize_diagnosis` (data_process.py:10-18): lower-case, strip,
replace punctuation by spaces, collapse whitespace runs.  Empty input is
returned unchanged. -/
def normalize_diagnosis (l : List Char) : List Char :=
  if l = [] then [] else collapseWs (subPunct (pyStrip (pyLower l)))

/-- `str.split()` worker with an accumulator for the current token. -/
def splitWsAux : List Char → List Char → List (List Char)
  | acc, [] => if acc = [] then [] else [acc.reverse]
  | acc, c :: cs =>
    if isPySpace c then
      if acc = [] then splitWsAux [] cs else acc.reverse :: splitWsAux [] cs
    else splitWsAux (c :: acc) cs

/-- `str.split()`: whitespace-separated tokens, empties dropped. -/
def splitWs (l : List Char) : List (List Char) := splitWsAux [] l

/-- The token set of a normalized diagnosis:
`set(normalize_diagnosis(d).split())`. -/
def tokenSet (d : List Char) : Finset (List Char) :=
  (splitWs (normalize_diagnosis d)).toFinset

/-- `calculate_jaccard_similarity` (data_process.py:283-294). -/
def calculate_jaccard_similarity (diag1 diag2 : List Char) : ℚ :=
  let words1 := tokenSet diag1
  let words2 := tokenSet diag2
  if words1.card = 0 ∧ words2.card = 0 then 0
  else
    let inter := (words1 ∩ words2).card
    let uni := (words1 ∪ words2).card
    if uni > 0 then (inter : ℚ) / uni else 0

/-- `are_diagnoses_same` (data_process.py:76-112): exact match after
normalization, Jaccard overlap at or above the threshold, or containment
with a high length ratio. -/
def are_diagnoses_same (diag1 diag2 : List Char) (similarity_threshold : ℚ) : Bool :=
  if diag1 = [] ∨ diag2 = [] then false
  else
    let d1 := normalize_diagnosis diag1
    let d2 := normalize_diagnosis diag2
    if d1 = d2 then true
    else
      let words1 := (splitWs d1).toFinset
      let words2 := (splitWs d2).toFinset
      if words1 = ∅ ∨ words2 = ∅ then false
      else
        let uni := (words1 ∪ words2).card
        let jac : ℚ := if uni > 0 then ((words1 ∩ words2).card : ℚ) / uni else 0
        if jac ≥ similarity_threshold then true
        else if (decide (d1 <:+: d2) ∨ decide (d2 <:+: d1)) ∧
            ((min d1.length d2.length : ℚ) / (max d1.length d2.length) > similarity_threshold) then
          true
        else false

/-- `has_high_content_overlap` (data_process.py:115-159): Jaccard overlap
at or above the threshold, or the smaller token set almost contained in
the larger one. -/
def has_high_content_overlap (diag1 diag2 : List Char) (overlap_threshold : ℚ) : Bool :=
  if diag1 = [] ∨ diag2 = [] then false
  else
    let d1 := normalize_diagnosis diag1
    let d2 := normalize_diagnosis diag2
    let words1 := (splitWs d1).toFinset
    let words2 := (splitWs d2).toFinset
    if words1 = ∅ ∨ words2 = ∅ then false
    else
      let uni := (words1 ∪ words2).card
      let jac : ℚ := if uni > 0 then ((words1 ∩ words2).card : ℚ) / uni else 0
      if jac ≥ overlap_threshold then true
      else
        let smaller := if words1.card ≤ words2.card then words1 else words2
        let larger := if words1.card ≤ words2.card then words2 else words1
        if ((smaller ∩ larger).card : ℚ) / smaller.card ≥ overlap_threshold then true
        else false

/-- `diagnoses_match` (data_process.py:44-73): exact match, containment
with length ratio above the threshold, or word overlap above the
threshold. -/
def diagnoses_match (diag1 diag2 : List Char) (threshold : ℚ) : Bool :=
  if diag1 = [] ∨ diag2 = [] then false
  else
    let d1 := normalize_diagnosis diag1
    let d2 := normalize_diagnosis diag2
    if d1 = d2 then true
    else if (decide (d1 <:+: d2) ∨ decide (d2 <:+: d1)) ∧
        ((min d1.length d2.length : ℚ) / (max d1.length d2.length) > threshold) then
      true
    else
      let words1 := (splitWs d1).toFinset
      let words2 := (splitWs d2).toFinset
      if words1 ≠ ∅ ∧ words2 ≠ ∅ ∧
          (((words1 ∩ words2).card : ℚ) / (words1 ∪ words2).card > threshold) then true
      else false

/-- Round-half-to-even on a rational, modelling Python's `round` to the
nearest integer. -/
def roundHalfEven (q : ℚ) : ℤ :=
  let f := ⌊q⌋
  if q - f < 1/2 then f
  else if 1/2 < q - f then f + 1
  else if f % 2 = 0 then f else f + 1

/-- Model of Python's `round(x, 4)`. -/
def round4 (q : ℚ) : ℚ := (roundHalfEven (q * 10000) : ℚ) / 10000

/-- A candidate pair as built in `generate_task3_pairs`
(data_process.py:330-336): prediction/truth indices, the two diagnosis
strings, and the rounded similarity. -/
structure CandPair where
  predIdx : ℕ
  truthIdx : ℕ
  predicted : List Char
  ground_truth : List Char
  similarity : ℚ
deriving DecidableEq

/-- A candidate pair after `normalize_similarities_in_case`: the
`similarity` field as the code leaves it, plus the
`similarity_normalized` and `similarity_original` keys. -/
structure NormPair where
  predIdx : ℕ
  truthIdx : ℕ
  predicted : List Char
  ground_truth : List Char
  similarity : ℚ
  simNorm : ℚ
  simOrig : ℚ
deriving DecidableEq

instance : Inhabited NormPair := ⟨⟨0, 0, [], [], 0, 0, 0⟩⟩

/-- An output pair of `generate_task3_pairs`/`create_default_pairs`:
`simOrig` is `none` when the `similarity_original` key is absent
(default pairs). -/
structure OutPair where
  pair_id : Char
  predicted : List Char
  ground_truth : List Char
  similarity : ℚ
  simOrig : Option ℚ
deriving DecidableEq

/-- The inline similarity source of `generate_task3_pairs`
(data_process.py:325-328): the matrix entry when the matrix is truthy
and both indices are in bounds, the lexical Jaccard score otherwise. -/
def simLookup (mat : Option (List (List ℚ))) (i j : ℕ) (pred truth : List Char) : ℚ :=
  match mat with
  | none => calculate_jaccard_similarity pred truth
  | some m =>
    if m ≠ [] ∧ i < m.length ∧ j < (m.getD i []).length then (m.getD i []).getD j 0
    else calculate_jaccard_similarity pred truth

/-- `get_dermlip_similarity` (data_process.py:275-280): the matrix entry
when available, the constant `0.0` otherwise. -/
def get_dermlip_similarity (mat : Option (List (List ℚ))) (pred_idx truth_idx : ℕ) : ℚ :=
  match mat with
  | none => 0
  | some m =>
    if m ≠ [] ∧ pred_idx < m.length ∧ truth_idx < (m.getD pred_idx []).length then
      (m.getD pred_idx []).getD truth_idx 0
    else 0

/-- One filtering pass of `generate_task3_pairs`
(data_process.py:313-336 and 341-357): the cross product of the two
lists minus the pairs rejected as same or overlapping, with rounded
similarities. -/
def candPairs (pred truth : List (List Char)) (mat : Option (List (List ℚ)))
    (sameT overlapT : ℚ) : List CandPair :=
  pred.enum.flatMap fun ip =>
    truth.enum.filterMap fun jt =>
      if are_diagnoses_same ip.2 jt.2 sameT then none
      else if has_high_content_overlap ip.2 jt.2 overlapT then none
      else some ⟨ip.1, jt.1, ip.2, jt.2, round4 (simLookup mat ip.1 jt.1 ip.2 jt.2)⟩

/-- The list of similarity values of a candidate list
(`[pair['similarity'] for pair in all_pairs]`). -/
def simsOf (l : List CandPair) : List ℚ := l.map (·.similarity)

/-- `min(similarities)` as the fold Python's `min` performs. -/
def minSim (p : CandPair) (ps : List CandPair) : ℚ :=
  (simsOf ps).foldl min p.similarity

/-- `max(similarities)` as the fold Python's `max` performs. -/
def maxSim (p : CandPair) (ps : List CandPair) : ℚ :=
  (simsOf ps).foldl max p.similarity

/-- `normalize_similarities_in_case` (data_process.py:162-199).  When
the spread is below `1e-6` only `similarity_normalized` is set to `0.5`
and `similarity` keeps its old value; otherwise `similarity` and
`similarity_normalized` both become the rounded min-max normalization. -/
def normalize_similarities_in_case : List CandPair → List NormPair
  | [] => []
  | p :: ps =>
    let mn := minSim p ps
    let mx := maxSim p ps
    if mx - mn < 1/1000000 then
      (p :: ps).map fun q =>
        ⟨q.predIdx, q.truthIdx, q.predicted, q.ground_truth, q.similarity, 1/2, q.similarity⟩
    else
      (p :: ps).map fun q =>
        let ns := round4 ((q.similarity - mn) / (mx - mn))
        ⟨q.predIdx, q.truthIdx, q.predicted, q.ground_truth, ns, ns, q.similarity⟩

/-- The enumeration order of the selection loops of
`generate_task3_pairs` (data_process.py:370-371): all index pairs
`(i, j)` with `i < j < n`, `i` ascending and `j` ascending within. -/
def comboList (n : ℕ) : List (ℕ × ℕ) :=
  (List.range n).flatMap fun i => ((List.range n).filter fun j => i < j).map fun j => (i, j)

/-- Whether the combination of the two pairs is allowed by the selection
loop (data_process.py:375-377): both the prediction indices and the
truth indices must differ. -/
def disjointPair (p1 p2 : NormPair) : Prop :=
  p1.predIdx ≠ p2.predIdx ∧ p1.truthIdx ≠ p2.truthIdx

instance (p1 p2 : NormPair) : Decidable (disjointPair p1 p2) := by
  unfold disjointPair; infer_instance

/-- One step of the selection loop (data_process.py:370-382): skip
non-disjoint combinations, keep the first combination whose similarity
difference strictly exceeds the best seen so far. -/
def selStep (np : List NormPair) (acc : ℚ × Option (NormPair × NormPair)) (ij : ℕ × ℕ) :
    ℚ × Option (NormPair × NormPair) :=
  let p1 := np.getD ij.1 default
  let p2 := np.getD ij.2 default
  if disjointPair p1 p2 then
    let d := |p1.similarity - p2.similarity|
    if d > acc.1 then (d, some (p1, p2)) else acc
  else acc

/-- The full selection loop of `generate_task3_pairs`
(data_process.py:367-382), starting from `best_variance = -1`. -/
def selectCombo (np : List NormPair) : ℚ × Option (NormPair × NormPair) :=
  (comboList np.length).foldl (selStep np) (-1, none)

/-- Placeholder used by `create_default_pairs` when the predicted list
is empty. -/
def noPredStr : List Char := "无预测诊断".toList

/-- Placeholder used by `create_default_pairs` when the truth list is
empty. -/
def noTruthStr : List Char := "无真实诊断".toList

/-- The clamped index `min(i, len(l) - 1) if l else 0` of
`create_default_pairs` (data_process.py:432-433). -/
def defaultIdx (l : List (List Char)) (i : ℕ) : ℕ :=
  if l ≠ [] then min i (l.length - 1) else 0

/-- The entry `l[idx] if l else placeholder` of `create_default_pairs`
(data_process.py:435-436); `none` models an out-of-bounds access (an
uncaught `IndexError`). -/
def defaultEntry (l : List (List Char)) (placeholder : List Char) (i : ℕ) :
    Option (List Char) :=
  if l ≠ [] then l.get? (defaultIdx l i) else some placeholder

/-- The similarity source of `create_default_pairs`
(data_process.py:438-441). -/
def defaultSim (mat : Option (List (List ℚ))) (pred_idx truth_idx : ℕ)
    (p t : List Char) : ℚ :=
  match mat with
  | none => calculate_jaccard_similarity p t
  | some m =>
    if m ≠ [] ∧ pred_idx < m.length ∧ truth_idx < (m.getD pred_idx []).length then
      (m.getD pred_idx []).getD truth_idx 0
    else calculate_jaccard_similarity p t

/-- One iteration of the loop of `create_default_pairs`
(data_process.py:431-448), producing the pair with id `chr(65 + i)`. -/
def defaultPair (pred truth : List (List Char)) (mat : Option (List (List ℚ)))
    (i : ℕ) : Option OutPair :=
  match defaultEntry pred noPredStr i, defaultEntry truth noTruthStr i with
  | some p, some t =>
    some ⟨Char.ofNat (65 + i), p, t,
      round4 (defaultSim mat (defaultIdx pred i) (defaultIdx truth i) p t), none⟩
  | _, _ => none

/-- `create_default_pairs` (data_process.py:423-450). -/
def create_default_pairs (pred truth : List (List Char))
    (mat : Option (List (List ℚ))) : Option (List OutPair) := do
  let a ← defaultPair pred truth mat 0
  let b ← defaultPair pred truth mat 1
  pure [a, b]

/-- The candidate list of `generate_task3_pairs` after the strict pass
and, when it yields fewer than two pairs, the appended relaxed retry
(data_process.py:313-357). -/
def allPairsPhase (pred truth : List (List Char))
    (mat : Option (List (List ℚ))) : List CandPair :=
  if (candPairs pred truth mat (17/20) (7/10)).length < 2 then
    candPairs pred truth mat (17/20) (7/10) ++ candPairs pred truth mat (19/20) (4/5)
  else candPairs pred truth mat (17/20) (7/10)

/-- `generate_task3_pairs` (data_process.py:297-420).  The `shuffle`
argument models `random.shuffle` in the fallback branch; `none` models
an uncaught `IndexError`. -/
def generate_task3_pairs (pred truth : List (List Char))
    (mat : Option (List (List ℚ))) (shuffle : List NormPair → List NormPair) :
    Option (List OutPair) :=
  if pred.length < 2 ∨ truth.length < 2 then create_default_pairs pred truth mat
  else if (allPairsPhase pred truth mat).length < 2 then create_default_pairs pred truth mat
  else
    match (selectCombo (normalize_similarities_in_case (allPairsPhase pred truth mat))).2 with
    | some (p1, p2) =>
      some [⟨'A', p1.predicted, p1.ground_truth, round4 p1.similarity, some p1.simOrig⟩,
            ⟨'B', p2.predicted, p2.ground_truth, round4 p2.similarity, some p2.simOrig⟩]
    | none =>
      match (shuffle (normalize_similarities_in_case (allPairsPhase pred truth mat))).get? 0,
          (shuffle (normalize_similarities_in_case (allPairsPhase pred truth mat))).get? 1 with
      | some a, some b =>
        some [⟨'A', a.predicted, a.ground_truth, a.similarity, some a.simOrig⟩,
              ⟨'B', b.predicted, b.ground_truth, b.similarity, some b.simOrig⟩]
      | _, _ => none

/-- A reference record of the medical pool: its `GT` mapping as the
ordered key/value list of the underlying JSON object
(data_process.py:219). -/
structure MedItem where
  gt : List (List Char × List Char)
deriving DecidableEq

/-- `[v for k, v in med_gt.items() if k.startswith('label_')]`
(data_process.py:220). -/
def medLabels (m : MedItem) : List (List Char) :=
  (m.gt.filter fun kv => "label_".toList.isPrefixOf kv.1).map (·.2)

/-- The match score of one reference record against the normalized eval
ground-truth labels (data_process.py:226-237). -/
def matchScore (evalN : List (List Char)) (m : MedItem) : ℚ :=
  let medN := (medLabels m).map normalize_diagnosis
  let cnt := (evalN.filter fun e => medN.any fun g => diagnoses_match e g (4/5)).length
  (cnt : ℚ) / (max evalN.length medN.length : ℕ)

/-- One step of the best-match scan (data_process.py:217-241). -/
def matchStep (evalN : List (List Char)) (acc : Option MedItem × ℚ) (m : MedItem) :
    Option MedItem × ℚ :=
  if medLabels m = [] then acc
  else if matchScore evalN m > acc.2 then (some m, matchScore evalN m) else acc

/-- `match_case_by_gt` (data_process.py:202-247): the best-scoring
reference (first wins on ties) when its score clears `0.5`, else no
match. -/
def match_case_by_gt (evalGT : List (List Char)) (pool : List MedItem) : Option MedItem :=
  if evalGT = [] then none
  else if (pool.foldl (matchStep (evalGT.map normalize_diagnosis)) (none, 0)).2 ≥ 1/2 then
    (pool.foldl (matchStep (evalGT.map normalize_diagnosis)) (none, 0)).1
  else none

/-- Parsed JSON values, with `null` modelling Python's `None`. -/
inductive JVal where
  | null : JVal
  | bool : Bool → JVal
  | num : ℚ → JVal
  | str : String → JVal
  | arr : List JVal → JVal
  | obj : List (String × JVal) → JVal

mutual
/-- Structural equality on JSON values, modelling Python `==` (objects
are compared as their ordered field lists). -/
def jvalBeq : JVal → JVal → Bool
  | .null, .null => true
  | .bool a, .bool b => a == b
  | .num a, .num b => a == b
  | .str a, .str b => a == b
  | .arr xs, .arr ys => jArrBeq xs ys
  | .obj xs, .obj ys => jObjBeq xs ys
  | _, _ => false
/-- Elementwise equality of JSON arrays. -/
def jArrBeq : List JVal → List JVal → Bool
  | [], [] => true
  | x :: xs, y :: ys => jvalBeq x y && jArrBeq xs ys
  | _, _ => false
/-- Fieldwise equality of JSON objects. -/
def jObjBeq : List (String × JVal) → List (String × JVal) → Bool
  | [], [] => true
  | (k1, v1) :: xs, (k2, v2) :: ys => k1 == k2 && jvalBeq v1 v2 && jObjBeq xs ys
  | _, _ => false
end

/-- Python truthiness of a JSON value (`None`, `False`, `0`, `""`,
`[]` and `{}` are falsy). -/
def jTruthy : JVal → Bool
  | .null => false
  | .bool b => b
  | .num q => q ≠ 0
  | .str s => s ≠ ""
  | .arr l => !l.isEmpty
  | .obj l => !l.isEmpty

/-- `dict.get(key, default)` on an object's ordered field list. -/
def jGetD (fields : List (String × JVal)) (key : String) (dflt : JVal) : JVal :=
  match fields.find? (fun kv => kv.1 == key) with
  | some kv => kv.2
  | none => dflt

/-- `key in dict` on an object's ordered field list. -/
def jHasKey (fields : List (String × JVal)) (key : String) : Bool :=
  (fields.find? (fun kv => kv.1 == key)).isSome

/-- `has_none_values` (data_process.py:901-915 and fliter.py:113-129):
recursive scan for `None` anywhere in the nested structure. -/
def has_none_values : JVal → Bool
  | .null => true
  | .arr [] => false
  | .arr (x :: xs) => has_none_values x || has_none_values (.arr xs)
  | .obj [] => false
  | .obj ((_, v) :: xs) => has_none_values v || has_none_values (.obj xs)
  | _ => false

/-- Spec-side statement of the deep-scan rule: a `null` occurs somewhere
in the nested structure (any dict value or list element, at any
depth). -/
inductive ContainsNull : JVal → Prop
  | null : ContainsNull .null
  | arr {l : List JVal} {x : JVal} : x ∈ l → ContainsNull x → ContainsNull (.arr l)
  | obj {l : List (String × JVal)} {k : String} {v : JVal} :
      (k, v) ∈ l → ContainsNull v → ContainsNull (.obj l)

/-- The required pair fields, in the order the validator checks them
(data_process.py:927). -/
def reqPairFields : List String := ["pair_id", "predicted", "ground_truth", "similarity"]

/-- The per-pair field check of `validate_task3_pairs`
(data_process.py:927-932): the first required field that is missing or
`None`, if any. -/
def pairFieldIssue (i : ℕ) (fields : List (String × JVal)) : List String → Option String
  | [] => none
  | f :: fs =>
    if ¬jHasKey fields f then some s!"task3_pairs[{i}]缺少字段: {f}"
    else if jvalBeq (jGetD fields f .null) .null then some s!"task3_pairs[{i}].{f}为None"
    else pairFieldIssue i fields fs

/-- The per-pair loop of `validate_task3_pairs`
(data_process.py:923-932), returning the first failure reason. -/
def pairsIssue (i : ℕ) : List JVal → Option String
  | [] => none
  | .obj fields :: rest =>
    match pairFieldIssue i fields reqPairFields with
    | some r => some r
    | none => pairsIssue (i + 1) rest
  | _ :: _ => some s!"task3_pairs[{i}]不是字典"

/-- The fields of a pair record, `{}` when it is not an object
(only used after `pairsIssue` has established it is one). -/
def jFields : JVal → List (String × JVal)
  | .obj fields => fields
  | _ => []

/-- `validate_task3_pairs` (data_process.py:918-943): exactly two
well-formed pair dictionaries, distinct `pair_id`, distinct
(predicted, ground_truth) content. -/
def validate_task3_pairs (pairs : List JVal) : Bool × String :=
  if pairs.length ≠ 2 then
    (false, s!"task3_pairs数量必须为2个 (当前: {pairs.length})")
  else
    match pairsIssue 0 pairs with
    | some r => (false, r)
    | none =>
      let a := jFields (pairs.getD 0 .null)
      let b := jFields (pairs.getD 1 .null)
      if jvalBeq (jGetD a "pair_id" .null) (jGetD b "pair_id" .null) then
        (false, "两对的pair_id相同")
      else if jvalBeq (jGetD a "predicted" .null) (jGetD b "predicted" .null) &&
          jvalBeq (jGetD a "ground_truth" .null) (jGetD b "ground_truth" .null) then
        (false, "两对的诊断内容完全相同")
      else (true, "")

/-- `diagnoses_are_same` (fliter.py:171-201): case/whitespace-insensitive
equality, equality after punctuation removal, or containment with a
length ratio above `0.8`. -/
def fliter_diagnoses_are_same (diag1 diag2 : List Char) : Bool :=
  if diag1 = [] ∨ diag2 = [] then false
  else
    let d1 := pyStrip (pyLower diag1)
    let d2 := pyStrip (pyLower diag2)
    if d1 = d2 then true
    else if d1.filter (fun c => isWordChar c || isPySpace c) =
        d2.filter (fun c => isWordChar c || isPySpace c) then true
    else if (decide (d1 <:+: d2) ∨ decide (d2 <:+: d1)) ∧
        ((min d1.length d2.length : ℚ) / (max d1.length d2.length) > 4/5) then true
    else false

/-- The string payload of a JSON value, `[]` when it is not a string. -/
def jStr : JVal → List Char
  | .str s => s.toList
  | _ => []

/-- The element list of a JSON value, `[]` when it is not an array. -/
def jArr : JVal → List JVal
  | .arr l => l
  | _ => []

/-- The per-case rejection reasons of `validate_and_filter_data`
(fliter.py:24-66, rules 1-5), for a case record given as the ordered
field list of its JSON object.  Reasons accumulate; the case is removed
exactly when the list is non-empty. -/
def caseRemoveReasons (fields : List (String × JVal)) : List String :=
  let r1 := if has_none_values (.obj fields) then ["包含None值"] else []
  let tv := validate_task3_pairs (jArr (jGetD fields "task3_pairs" (.arr [])))
  let r2 := if tv.1 then [] else [tv.2]
  let predD := jGetD fields "predicted_diagnosis" (.str "")
  let truthD := jGetD fields "ground_truth_diagnosis" (.str "")
  let r3 :=
    if ¬jTruthy predD ∨ ¬jTruthy truthD then ["诊断为空"]
    else if fliter_diagnoses_are_same (jStr predD) (jStr truthD) then ["诊断一致"] else []
  let r4 := if ¬jTruthy (jGetD fields "image_paths" (.arr [])) then ["无图片路径"] else []
  let r5 := (["id", "pmid", "prompt"].filter fun f => ¬jTruthy (jGetD fields f .null)).map
    fun f => "缺少必需字段: " ++ f
  r1 ++ r2 ++ r3 ++ r4 ++ r5

/-- A validated case as seen by the selection phase of
`validate_and_filter_data`: its identifier and the two dispersion
metrics the selection reads. -/
structure VCase where
  ident : String
  variance : ℚ
  simRange : ℚ
deriving DecidableEq

/-- Deterministic model of the global random source (`random.seed`
makes every later draw a function of the seed alone). -/
structure Rng where
  state : ℕ
deriving DecidableEq

/-- `random.seed(seed)`: the ambient generator state is discarded and
replaced by a function of the seed. -/
def seedRng (seed : ℕ) : Rng := ⟨seed⟩

/-- One draw below `n` from the modelled generator (a 64-bit linear
congruential step standing in for the Mersenne Twister). -/
def randBelow (r : Rng) (n : ℕ) : ℕ × Rng :=
  let s := (r.state * 6364136223846793005 + 1442695040888963407) % (2 ^ 64)
  (if n = 0 then 0 else s % n, ⟨s⟩)

/-- `random.sample(l, k)`: draw `k` elements without replacement. -/
def sampleList [Inhabited α] : List α → ℕ → Rng → List α × Rng
  | _, 0, r => ([], r)
  | l, k + 1, r =>
    if l.isEmpty then ([], r)
    else
      let (i, r1) := randBelow r l.length
      let (rest, r2) := sampleList (l.eraseIdx i) k r1
      (l.getD i default :: rest, r2)

/-- `random.shuffle(l)`: modelled as sampling the whole list without
replacement. -/
def shuffleRng [Inhabited α] (l : List α) (r : Rng) : List α × Rng :=
  sampleList l l.length r

/-- `np.percentile(l, q)` with the default linear interpolation. -/
def percentile (l : List ℚ) (q : ℚ) : ℚ :=
  match l.mergeSort (fun a b => decide (a ≤ b)) with
  | [] => 0
  | s =>
    let h : ℚ := ((s.length : ℚ) - 1) * q / 100
    let vlo := s.getD ⌊h⌋.toNat 0
    let vhi := s.getD ⌈h⌉.toNat 0
    vlo + (h - ⌊h⌋) * (vhi - vlo)

instance : Inhabited VCase := ⟨⟨"", 0, 0⟩⟩

/-- The combined dispersion sort key of `validate_and_filter_data`
(data_process.py:765-771). -/
def dispKey (c : VCase) : ℚ := c.variance * (6/10) + c.simRange * (4/10)

/-- The tier allocation of the stratified selection
(data_process.py:801-820): initial 70%/25%/5% quotas shrunk to tier
availability, with any shortfall refilled from high, then medium, then
low. -/
def tierCounts (maxCases lenHigh lenMedium lenLow : ℕ) : ℕ × ℕ × ℕ :=
  let nHigh := min (maxCases * 70 / 100) lenHigh
  let nMedium := min (maxCases * 25 / 100) lenMedium
  let nLow := min (maxCases - nHigh - nMedium) lenLow
  let total := nHigh + nMedium + nLow
  if total < maxCases then
    let remaining := maxCases - total
    let addH := if lenHigh > nHigh then min remaining (lenHigh - nHigh) else 0
    let remaining := remaining - addH
    let addM := if remaining > 0 ∧ lenMedium > nMedium then min remaining (lenMedium - nMedium)
                else 0
    let remaining := remaining - addM
    let addL := if remaining > 0 ∧ lenLow > nLow then min remaining (lenLow - nLow) else 0
    (nHigh + addH, nMedium + addM, nLow + addL)
  else (nHigh, nMedium, nLow)

/-- `random.sample(tier, n)` guarded as in data_process.py:829-834 (only
sampled when both the quota and the tier are non-empty). -/
def sampleTier (tier : List VCase) (n : ℕ) (r : Rng) : List VCase × Rng :=
  if n > 0 ∧ tier ≠ [] then sampleList tier n r else ([], r)

/-- The stratified random selection branch of `validate_and_filter_data`
(data_process.py:759-845): sort by descending dispersion, partition by
variance percentiles, allocate tier quotas, sample each tier without
replacement, and shuffle the combined selection.  The `ambient`
generator state is overwritten by `random.seed(seed)`
(data_process.py:632-635) before any draw. -/
def stratifiedSelect (cases : List VCase) (maxCases : ℕ) (seed : ℕ) (ambient : Rng) :
    List VCase :=
  if cases.length ≤ maxCases then cases
  else
    let r0 := seedRng seed
    let _ := ambient
    let sorted := cases.mergeSort fun a b => decide (dispKey b ≤ dispKey a)
    let variances := sorted.map (·.variance)
    let highT := percentile variances 75
    let medT := percentile variances 50
    let high := sorted.filter fun c => decide (c.variance ≥ highT)
    let medium := sorted.filter fun c => decide (medT ≤ c.variance ∧ c.variance < highT)
    let low := sorted.filter fun c => decide (c.variance < medT)
    let (nH, nM, nL) := tierCounts maxCases high.length medium.length low.length
    let (sH, r1) := sampleTier high nH r0
    let (sM, r2) := sampleTier medium nM r1
    let (sL, r3) := sampleTier low nL r2
    (shuffleRng (sH ++ sM ++ sL) r3).1

instance : Inhabited CandPair := ⟨⟨0, 0, [], [], 0⟩⟩

/-- Whether an index combination of the selection loop is allowed:
the two pairs at those positions use disjoint prediction indices and
disjoint truth indices (data_process.py:375-377). -/
def comboOk (np : List NormPair) (c : ℕ × ℕ) : Prop :=
  disjointPair (np.getD c.1 default) (np.getD c.2 default)

instance (np : List NormPair) (c : ℕ × ℕ) : Decidable (comboOk np c) := by
  unfold comboOk
  infer_instance

/-- The similarity difference the selection loop compares
(data_process.py:379), on the pairs' (possibly updated) `similarity`
field. -/
def comboDiff (np : List NormPair) (c : ℕ × ℕ) : ℚ :=
  |(np.getD c.1 default).similarity - (np.getD c.2 default).similarity|

/-- The absolute difference of the two pairs' normalized similarities
(`similarity_normalized`). -/
def comboDiffN (np : List NormPair) (c : ℕ × ℕ) : ℚ :=
  |(np.getD c.1 default).simNorm - (np.getD c.2 default).simNorm|

/-- Lexicographic order on index combinations: the enumeration order of
the double selection loop. -/
def lexLt (a b : ℕ × ℕ) : Prop :=
  a.1 < b.1 ∨ (a.1 = b.1 ∧ a.2 < b.2)

/-! ## Helper lemmas -/

theorem map_id_of {α : Type _} {f : α → α} :
    ∀ l : List α, (∀ c ∈ l, f c = c) → l.map f = l := by
  intro l h
  induction l with
  | nil => rfl
  | cons c cs ih =>
    simp only [List.map_cons]
    rw [h c (by simp), ih fun x hx => h x (by simp [hx])]

theorem toLower_toLower (c : Char) : c.toLower.toLower = c.toLower := by
  unfold Char.toLower
  by_cases h : c.toNat ≥ 65 ∧ c.toNat ≤ 90
  · rw [if_pos h]
    have hv : (Char.ofNat (c.toNat + 32)).toNat = c.toNat + 32 := by
      rw [Char.ofNat, dif_pos]
      · rfl
      · exact Or.inl (by omega)
    rw [if_neg]
    rw [hv]
    omega
  · rw [if_neg h, if_neg h]

theorem mem_collapseAux {c : Char} : ∀ (l : List Char) (b : Bool),
    c ∈ collapseAux b l → c ∈ l ∨ c = ' ' := by
  intro l
  induction l with
  | nil => intro b h; simp [collapseAux] at h
  | cons d ds ih =>
    intro b h
    unfold collapseAux at h
    by_cases hd : isPySpace d
    · rw [if_pos hd] at h
      by_cases hb : b
      · rcases ih true (by simpa [hb] using h) with h1 | h1
        · exact Or.inl (by simp [h1])
        · exact Or.inr h1
      · simp only [hb, if_false] at h
        rcases List.mem_cons.1 h with h1 | h1
        · exact Or.inr h1
        · rcases ih true h1 with h2 | h2
          · exact Or.inl (by simp [h2])
          · exact Or.inr h2
    · rw [if_neg hd] at h
      rcases List.mem_cons.1 h with h1 | h1
      · exact Or.inl (by simp [h1])
      · rcases ih false h1 with h2 | h2
        · exact Or.inl (by simp [h2])
        · exact Or.inr h2

theorem space_collapseAux {c : Char} : ∀ (l : List Char) (b : Bool),
    c ∈ collapseAux b l → isPySpace c → c = ' ' := by
  intro l
  induction l with
  | nil => intro b h; simp [collapseAux] at h
  | cons d ds ih =>
    intro b h hc
    unfold collapseAux at h
    by_cases hd : isPySpace d
    · rw [if_pos hd] at h
      by_cases hb : b
      · exact ih true (by simpa [hb] using h) hc
      · simp only [hb, if_false] at h
        rcases List.mem_cons.1 h with h1 | h1
        · exact h1
        · exact ih true h1 hc
    · rw [if_neg hd] at h
      rcases List.mem_cons.1 h with h1 | h1
      · exact absurd hc (by simp [h1, hd])
      · exact ih false h1 hc

/-- The head of a collapse output is never a space when the previous
character was one. -/
def noLeadSpace : List Char → Prop
  | [] => True
  | c :: _ => isPySpace c = false

/-- Adjacent characters are never both whitespace. -/
def noAdjSpace (a b : Char) : Prop := ¬(isPySpace a = true ∧ isPySpace b = true)

theorem collapseAux_chain : ∀ l : List Char,
    List.Chain' noAdjSpace (collapseAux false l) ∧
    List.Chain' noAdjSpace (collapseAux true l) ∧ noLeadSpace (collapseAux true l) := by
  intro l
  induction l with
  | nil => exact ⟨List.chain'_nil, List.chain'_nil, trivial⟩
  | cons d ds ih =>
    obtain ⟨ihf, iht, ihh⟩ := ih
    by_cases hd : isPySpace d
    · refine ⟨?_, by simpa [collapseAux, hd] using iht, by simpa [collapseAux, hd] using ihh⟩
      have : collapseAux false (d :: ds) = ' ' :: collapseAux true ds := by
        simp [collapseAux, hd]
      rw [this]
      apply List.chain'_cons'.2
      refine ⟨?_, iht⟩
      intro y hy
      cases hcy : collapseAux true ds with
      | nil => simp [hcy] at hy
      | cons z zs =>
        simp only [hcy, List.head?_cons, Option.mem_def, Option.some.injEq] at hy
        subst hy
        have := ihh
        rw [hcy] at this
        exact fun hcon => by simp [noLeadSpace] at this; simp [this] at hcon
    · have hf : collapseAux false (d :: ds) = d :: collapseAux false ds := by
        simp [collapseAux, hd]
      have ht : collapseAux true (d :: ds) = d :: collapseAux false ds := by
        simp [collapseAux, hd]
      have hchain : List.Chain' noAdjSpace (d :: collapseAux false ds) := by
        apply List.chain'_cons'.2
        exact ⟨fun y _ => fun hcon => by simp [hd] at hcon, ihf⟩
      exact ⟨hf ▸ hchain, ht ▸ hchain, by simp [ht, noLeadSpace, hd]⟩

theorem collapseAux_id : ∀ l : List Char,
    List.Chain' noAdjSpace l → (∀ c ∈ l, isPySpace c → c = ' ') →
    collapseAux false l = l ∧ (noLeadSpace l → collapseAux true l = l) := by
  intro l
  induction l with
  | nil => exact fun _ _ => ⟨rfl, fun _ => rfl⟩
  | cons d ds ih =>
    intro hch hsp
    have hch' : List.Chain' noAdjSpace ds := (List.chain'_cons'.1 hch).2
    have hsp' : ∀ c ∈ ds, isPySpace c → c = ' ' := fun c hc => hsp c (by simp [hc])
    obtain ⟨ihf, iht⟩ := ih hch' hsp'
    by_cases hd : isPySpace d
    · have hd' : d = ' ' := hsp d (by simp) hd
      have hlead : noLeadSpace ds := by
        cases ds with
        | nil => trivial
        | cons e es =>
          have := (List.chain'_cons'.1 hch).1 e (by simp)
          unfold noAdjSpace at this
          by_cases he : isPySpace e
          · exact absurd ⟨hd, he⟩ this
          · simpa [noLeadSpace] using he
      constructor
      · simp only [collapseAux, hd, if_true, if_false, Bool.false_eq_true]
        rw [iht hlead, hd']
      · intro hl
        exact absurd hd (by simpa [noLeadSpace] using hl)
    · constructor
      · simp only [collapseAux, hd, if_false, Bool.false_eq_true]
        rw [ihf]
      · intro _
        simp only [collapseAux, hd, if_false, Bool.false_eq_true]
        rw [ihf]

theorem mem_pyStrip {c : Char} {l : List Char} (h : c ∈ pyStrip l) : c ∈ l := by
  unfold pyStrip at h
  rw [List.mem_reverse] at h
  have h1 := (List.dropWhile_suffix (l := (l.dropWhile isPySpace).reverse) isPySpace).subset h
  rw [List.mem_reverse] at h1
  exact (List.dropWhile_suffix (l := l) isPySpace).subset h1

theorem mem_subPunct_class {c : Char} {l : List Char} (h : c ∈ subPunct l) :
    (isWordChar c || isPySpace c) = true := by
  unfold subPunct at h
  obtain ⟨d, _, hmap⟩ := List.mem_map.1 h
  by_cases hcl : isWordChar d || isPySpace d
  · rw [if_pos hcl] at hmap
    rw [← hmap]
    exact hcl
  · rw [if_neg hcl] at hmap
    rw [← hmap]
    decide

theorem mem_subPunct_source {c : Char} {l : List Char} (h : c ∈ subPunct l) :
    c ∈ l ∨ c = ' ' := by
  unfold subPunct at h
  obtain ⟨d, hd, hmap⟩ := List.mem_map.1 h
  by_cases hcl : isWordChar d || isPySpace d
  · rw [if_pos hcl] at hmap
    exact Or.inl (hmap ▸ hd)
  · rw [if_neg hcl] at hmap
    exact Or.inr hmap.symm

theorem normalize_chars {x : List Char} :
    ∀ c ∈ normalize_diagnosis x,
      (isWordChar c || isPySpace c) = true ∧ (isPySpace c = true → c = ' ') ∧
      Char.toLower c = c := by
  intro c hc
  by_cases hx : x = []
  · rw [hx] at hc
    simp [normalize_diagnosis] at hc
  · have hy : normalize_diagnosis x = collapseAux false (subPunct (pyStrip (pyLower x))) := by
      unfold normalize_diagnosis collapseWs
      rw [if_neg hx]
    rw [hy] at hc
    have hsp : isPySpace c = true → c = ' ' := space_collapseAux _ false hc
    rcases mem_collapseAux _ false hc with hsrc | hsrc
    · refine ⟨mem_subPunct_class hsrc, hsp, ?_⟩
      rcases mem_subPunct_source hsrc with hsrc2 | hsrc2
      · have hlow := mem_pyStrip hsrc2
        obtain ⟨d, _, hd⟩ := List.mem_map.1 hlow
        rw [← hd]
        exact toLower_toLower d
      · rw [hsrc2]
        decide
    · rw [hsrc]
      exact ⟨by decide, fun _ => rfl, by decide⟩

theorem chain_pyStrip {l : List Char} (h : List.Chain' noAdjSpace l) :
    List.Chain' noAdjSpace (pyStrip l) := by
  have flip_imp : ∀ {m : List Char}, List.Chain' noAdjSpace m →
      List.Chain' (flip noAdjSpace) m := fun hm =>
    hm.imp fun _ _ hab hcon => hab ⟨hcon.2, hcon.1⟩
  have suffix_chain : ∀ {m : List Char}, List.Chain' noAdjSpace m →
      List.Chain' noAdjSpace (m.dropWhile isPySpace) := by
    intro m hm
    obtain ⟨t, ht⟩ := List.dropWhile_suffix (l := m) isPySpace
    rw [← ht] at hm
    exact (List.chain'_append.1 hm).2.1
  have rev_chain : ∀ {m : List Char}, List.Chain' noAdjSpace m →
      List.Chain' noAdjSpace m.reverse := by
    intro m hm
    rw [List.chain'_reverse]
    exact flip_imp hm
  exact rev_chain (suffix_chain (rev_chain (suffix_chain h)))

/-- `C2` (amended).  The Diagnosis Normalizer is idempotent only up to a
final strip: renormalizing strips the leading/trailing space that a
boundary punctuation character leaves behind.  For every string `x`,
`normalize(normalize(x)) == strip(normalize(x))`; in particular
`normalize` is idempotent exactly on the inputs whose normalized form
has no leading or trailing space. -/
theorem normalize_eq_strip_of (y : List Char)
    (hcls : ∀ c ∈ y, (isWordChar c || isPySpace c) = true ∧ (isPySpace c = true → c = ' ') ∧
      Char.toLower c = c)
    (hch : List.Chain' noAdjSpace y) :
    normalize_diagnosis y = pyStrip y := by
  by_cases hy0 : y = []
  · rw [hy0]
    simp [normalize_diagnosis, pyStrip]
  · unfold normalize_diagnosis
    rw [if_neg hy0]
    have h1 : pyLower y = y := map_id_of _ fun c hc => (hcls c hc).2.2
    rw [h1]
    have h2 : subPunct (pyStrip y) = pyStrip y := by
      apply map_id_of
      intro c hc
      exact if_pos ((hcls c (mem_pyStrip hc)).1)
    rw [h2]
    have hsp : ∀ c ∈ pyStrip y, isPySpace c = true → c = ' ' :=
      fun c hc => (hcls c (mem_pyStrip hc)).2.1
    exact (collapseAux_id _ (chain_pyStrip hch) hsp).1

theorem normalize_diagnosis_normalize (x : List Char) :
    normalize_diagnosis (normalize_diagnosis x) = pyStrip (normalize_diagnosis x) := by
  apply normalize_eq_strip_of _ (normalize_chars (x := x))
  by_cases hx : x = []
  · rw [hx]
    simp [normalize_diagnosis]
  · have hyeq : normalize_diagnosis x = collapseAux false (subPunct (pyStrip (pyLower x))) := by
      unfold normalize_diagnosis collapseWs
      rw [if_neg hx]
    rw [hyeq]
    exact (collapseAux_chain (subPunct (pyStrip (pyLower x)))).1

/-- `C2` counterexample: `normalize("a!") == "a "` (the `!` becomes a
trailing space) but `normalize("a ") == "a"`, so the normalizer is not
idempotent. -/
theorem normalize_diagnosis_not_idempotent :
    normalize_diagnosis (normalize_diagnosis ['a', '!']) ≠ normalize_diagnosis ['a', '!'] := by
  decide

/-- `C6` (amended).  `jaccard(a, a) == 1.0` holds for every `a` whose
normalized token set is non-empty (rather than for every non-empty
`a`: a string of punctuation or whitespace only normalizes to an empty
token set and scores `0.0` against itself), and
`jaccard("", "") == 0.0` is a defined zero. -/
theorem jaccard_self_eq_one (a : List Char) (h : tokenSet a ≠ ∅) :
    calculate_jaccard_similarity a a = 1 ∧ calculate_jaccard_similarity [] [] = 0 := by
  constructor
  · unfold calculate_jaccard_similarity
    have hcard : tokenSet a ≠ ∅ → (tokenSet a).card ≠ 0 := by
      intro hne hc
      exact hne (Finset.card_eq_zero.1 hc)
    rw [if_neg (by intro hcon; exact hcard h hcon.1)]
    simp only [Finset.inter_self, Finset.union_self]
    rw [if_pos (Nat.pos_of_ne_zero (hcard h))]
    exact div_self (by exact_mod_cast hcard h)
  · decide

/-- `C6` witness: `jaccard` of the (token-bearing) string `"a"` with
itself is `1.0`. -/
theorem jaccard_self_eq_one_witness :
    calculate_jaccard_similarity ['a'] ['a'] = 1 ∧ calculate_jaccard_similarity [] [] = 0 :=
  jaccard_self_eq_one ['a'] (by decide)

/-- `C6` counterexample: `"!"` is non-empty, yet `jaccard("!", "!")` is
`0.0`, not `1.0`, because its normalized token set is empty. -/
theorem jaccard_self_counterexample :
    (['!'] : List Char) ≠ [] ∧ calculate_jaccard_similarity ['!'] ['!'] ≠ 1 := by
  constructor
  · decide
  · decide

/-- `C5` (confirmed).  The similarity lookup of the Pair Selector
returns the matrix entry exactly when the matrix is present, non-empty
and both indices are in bounds of their (possibly ragged) rows; in
every other case it falls back to the lexical Jaccard score instead of
failing, and the standalone `get_dermlip_similarity` helper likewise
returns its defined unavailable signal `0.0`. -/
theorem simLookup_spec (mat : Option (List (List ℚ))) (i j : ℕ) (p t : List Char) :
    (∀ m, mat = some m → m ≠ [] → i < m.length → j < (m.getD i []).length →
      simLookup mat i j p t = (m.getD i []).getD j 0 ∧
      get_dermlip_similarity mat i j = (m.getD i []).getD j 0) ∧
    ((mat = none ∨ ∃ m, mat = some m ∧ (m = [] ∨ m.length ≤ i ∨ (m.getD i []).length ≤ j)) →
      simLookup mat i j p t = calculate_jaccard_similarity p t ∧
      get_dermlip_similarity mat i j = 0) := by
  constructor
  · intro m hm hne hi hj
    subst hm
    simp only [simLookup, get_dermlip_similarity]
    rw [if_pos ⟨hne, hi, hj⟩, if_pos ⟨hne, hi, hj⟩]
    exact ⟨rfl, rfl⟩
  · intro hcase
    rcases hcase with hnone | ⟨m, hm, hbad⟩
    · subst hnone
      exact ⟨rfl, rfl⟩
    · subst hm
      simp only [simLookup, get_dermlip_similarity]
      have hneg : ¬(m ≠ [] ∧ i < m.length ∧ j < (m.getD i []).length) := by
        rcases hbad with h | h | h
        · exact fun hcon => hcon.1 h
        · exact fun hcon => absurd hcon.2.1 (not_lt.2 h)
        · exact fun hcon => absurd hcon.2.2 (not_lt.2 h)
      rw [if_neg hneg, if_neg hneg]
      exact ⟨rfl, rfl⟩

/-- `C5` witness: a concrete in-bounds lookup returns the entry, and a
concrete ragged-row lookup falls back to `jaccard`. -/
theorem simLookup_spec_witness :
    simLookup (some [[5], []]) 0 0 ['a'] ['b'] = 5 ∧
    simLookup (some [[5], []]) 1 0 ['a'] ['a'] = calculate_jaccard_similarity ['a'] ['a'] := by
  constructor
  · have h := (simLookup_spec (some [[5], []]) 0 0 ['a'] ['b']).1 [[5], []]
      rfl (by decide) (by decide) (by decide)
    rw [h.1]
    decide
  · have h := (simLookup_spec (some [[5], []]) 1 0 ['a'] ['a']).2
      (Or.inr ⟨[[5], []], rfl, Or.inr (Or.inr (by decide))⟩)
    exact h.1

theorem roundHalfEven_cases (q : ℚ) :
    roundHalfEven q = ⌊q⌋ ∨ (roundHalfEven q = ⌊q⌋ + 1 ∧ 1/2 ≤ q - ⌊q⌋) := by
  simp only [roundHalfEven]
  split_ifs with h1 h2 h3
  · exact Or.inl rfl
  · exact Or.inr ⟨rfl, le_of_lt h2⟩
  · exact Or.inl rfl
  · exact Or.inr ⟨rfl, le_of_not_lt h1⟩

theorem round4_bounds {x : ℚ} (h0 : 0 ≤ x) (h1 : x ≤ 1) :
    0 ≤ round4 x ∧ round4 x ≤ 1 := by
  unfold round4
  have hq0 : (0 : ℚ) ≤ x * 10000 := by positivity
  have hq1 : x * 10000 ≤ 10000 := by nlinarith
  have hf0 : (0 : ℤ) ≤ ⌊x * 10000⌋ := Int.floor_nonneg.2 hq0
  rcases roundHalfEven_cases (x * 10000) with hc | ⟨hc, hhalf⟩
  · rw [hc]
    constructor
    · apply div_nonneg _ (by norm_num)
      exact_mod_cast hf0
    · rw [div_le_one (by norm_num)]
      have : (⌊x * 10000⌋ : ℚ) ≤ x * 10000 := Int.floor_le _
      linarith
  · rw [hc]
    constructor
    · apply div_nonneg _ (by norm_num)
      push_cast
      exact_mod_cast Int.add_nonneg hf0 (by norm_num)
    · rw [div_le_one (by norm_num)]
      have hlt : (⌊x * 10000⌋ : ℚ) < 10000 := by
        have : (⌊x * 10000⌋ : ℚ) ≤ x * 10000 - 1/2 := by linarith
        linarith
      have hint : ⌊x * 10000⌋ < (10000 : ℤ) := by exact_mod_cast hlt
      have : ⌊x * 10000⌋ + 1 ≤ (10000 : ℤ) := hint
      exact_mod_cast this

theorem round4_is_int_div (x : ℚ) : ∃ k : ℤ, round4 x = (k : ℚ) / 10000 :=
  ⟨roundHalfEven (x * 10000), rfl⟩

theorem round4_eq_of_close {a b : ℚ}
    (ha : ∃ k : ℤ, a = (k : ℚ) / 10000) (hb : ∃ k : ℤ, b = (k : ℚ) / 10000)
    (h : |a - b| < 1/1000000) : a = b := by
  obtain ⟨k, rfl⟩ := ha
  obtain ⟨m, rfl⟩ := hb
  have hdiff : |(k : ℚ) - m| < 1/100 := by
    rw [div_sub_div_same] at h
    rw [abs_div] at h
    rw [abs_of_pos (by norm_num : (0:ℚ) < 10000)] at h
    rw [div_lt_iff₀ (by norm_num : (0:ℚ) < 10000)] at h
    linarith
  have hcast : ((|k - m| : ℤ) : ℚ) = |(k : ℚ) - m| := by
    rw [Int.cast_abs, Int.cast_sub]
  rw [← hcast] at hdiff
  have hint : |k - m| < (1 : ℤ) := by
    by_contra hcon
    push_neg at hcon
    have h1q : ((1 : ℤ) : ℚ) ≤ ((|k - m| : ℤ) : ℚ) := by exact_mod_cast hcon
    norm_num at h1q
    linarith
  rw [abs_lt] at hint
  have : k = m := by omega
  rw [this]

/-- `C9` (confirmed).  The stratified random selection seeds the global
generator from `random_seed` before any draw, so its output is a
function of the input pool, the target size and the seed alone: two
runs from arbitrary prior generator states produce the same selected
list. -/
theorem stratifiedSelect_deterministic (cases : List VCase) (maxCases seed : ℕ)
    (a1 a2 : Rng) (h : maxCases < cases.length) :
    stratifiedSelect cases maxCases seed a1 = stratifiedSelect cases maxCases seed a2 := by
  unfold stratifiedSelect
  rw [if_neg (by omega)]

/-- `C9` witness: a two-element pool sampled down to one with seed 42
from two different ambient generator states. -/
theorem stratifiedSelect_deterministic_witness :
    stratifiedSelect [⟨"a", 0, 0⟩, ⟨"b", 1, 1⟩] 1 42 ⟨0⟩ =
      stratifiedSelect [⟨"a", 0, 0⟩, ⟨"b", 1, 1⟩] 1 42 ⟨999⟩ :=
  stratifiedSelect_deterministic [⟨"a", 0, 0⟩, ⟨"b", 1, 1⟩] 1 42 ⟨0⟩ ⟨999⟩ (by norm_num)

theorem foldl_min_le_init : ∀ (l : List ℚ) (a : ℚ), l.foldl min a ≤ a := by
  intro l
  induction l with
  | nil => intro a; simp
  | cons b bs ih =>
    intro a
    calc List.foldl min a (b :: bs) = List.foldl min (min a b) bs := rfl
      _ ≤ min a b := ih _
      _ ≤ a := min_le_left _ _

theorem foldl_min_le_mem : ∀ (l : List ℚ) (a x : ℚ), x ∈ l → l.foldl min a ≤ x := by
  intro l
  induction l with
  | nil => intro a x hx; simp at hx
  | cons b bs ih =>
    intro a x hx
    rcases List.mem_cons.1 hx with h | h
    · calc List.foldl min a (b :: bs) = List.foldl min (min a b) bs := rfl
        _ ≤ min a b := foldl_min_le_init _ _
        _ ≤ b := min_le_right _ _
        _ = x := h.symm
    · exact ih (min a b) x h

theorem foldl_max_ge_init : ∀ (l : List ℚ) (a : ℚ), a ≤ l.foldl max a := by
  intro l
  induction l with
  | nil => intro a; simp
  | cons b bs ih =>
    intro a
    calc a ≤ max a b := le_max_left _ _
      _ ≤ List.foldl max (max a b) bs := ih _
      _ = List.foldl max a (b :: bs) := rfl

theorem foldl_max_ge_mem : ∀ (l : List ℚ) (a x : ℚ), x ∈ l → x ≤ l.foldl max a := by
  intro l
  induction l with
  | nil => intro a x hx; simp at hx
  | cons b bs ih =>
    intro a x hx
    rcases List.mem_cons.1 hx with h | h
    · calc x = b := h
        _ ≤ max a b := le_max_right _ _
        _ ≤ List.foldl max (max a b) bs := foldl_max_ge_init _ _
        _ = List.foldl max a (b :: bs) := rfl
    · exact ih (max a b) x h

theorem minSim_le {p : CandPair} {ps : List CandPair} {q : CandPair}
    (hq : q ∈ p :: ps) : minSim p ps ≤ q.similarity := by
  rcases List.mem_cons.1 hq with h | h
  · rw [h]
    exact foldl_min_le_init _ _
  · exact foldl_min_le_mem _ _ _ (List.mem_map.2 ⟨q, h, rfl⟩)

theorem le_maxSim {p : CandPair} {ps : List CandPair} {q : CandPair}
    (hq : q ∈ p :: ps) : q.similarity ≤ maxSim p ps := by
  rcases List.mem_cons.1 hq with h | h
  · rw [h]
    exact foldl_max_ge_init _ _
  · exact foldl_max_ge_mem _ _ _ (List.mem_map.2 ⟨q, h, rfl⟩)

/-- `C3` (confirmed).  For every non-empty candidate list, min-max
normalization keeps every pair's normalized similarity inside `[0, 1]`;
when the spread between the maximal and minimal similarity is below the
`1e-6` epsilon every normalized similarity is exactly `0.5`; and every
pair retains its original similarity in `similarity_original`. -/
theorem normalize_similarities_spec (p : CandPair) (ps : List CandPair) :
    (∀ q ∈ normalize_similarities_in_case (p :: ps), 0 ≤ q.simNorm ∧ q.simNorm ≤ 1) ∧
    (maxSim p ps - minSim p ps < 1/1000000 →
      ∀ q ∈ normalize_similarities_in_case (p :: ps), q.simNorm = 1/2) ∧
    (normalize_similarities_in_case (p :: ps)).map (·.simOrig) =
      (p :: ps).map (·.similarity) := by
  by_cases hc : maxSim p ps - minSim p ps < 1/1000000
  · have hbranch : normalize_similarities_in_case (p :: ps) = (p :: ps).map fun q =>
        ⟨q.predIdx, q.truthIdx, q.predicted, q.ground_truth, q.similarity, 1/2,
          q.similarity⟩ := by
      simp only [normalize_similarities_in_case]
      rw [if_pos hc]
    refine ⟨?_, fun _ q hq => ?_, ?_⟩
    · intro q hq
      rw [hbranch] at hq
      obtain ⟨r, _, hr⟩ := List.mem_map.1 hq
      rw [← hr]
      norm_num
    · rw [hbranch] at hq
      obtain ⟨r, _, hr⟩ := List.mem_map.1 hq
      rw [← hr]
    · rw [hbranch, List.map_map]
      rfl
  · have hbranch : normalize_similarities_in_case (p :: ps) = (p :: ps).map fun q =>
        ⟨q.predIdx, q.truthIdx, q.predicted, q.ground_truth,
          round4 ((q.similarity - minSim p ps) / (maxSim p ps - minSim p ps)),
          round4 ((q.similarity - minSim p ps) / (maxSim p ps - minSim p ps)),
          q.similarity⟩ := by
      simp only [normalize_similarities_in_case]
      rw [if_neg hc]
    have hpos : 0 < maxSim p ps - minSim p ps := by
      push_neg at hc
      linarith
    refine ⟨?_, fun habs => absurd habs hc, ?_⟩
    · intro q hq
      rw [hbranch] at hq
      obtain ⟨r, hrmem, hr⟩ := List.mem_map.1 hq
      rw [← hr]
      apply round4_bounds
      · apply div_nonneg _ (le_of_lt hpos)
        have := @minSim_le p ps r hrmem
        linarith
      · rw [div_le_one hpos]
        have := @le_maxSim p ps r hrmem
        linarith
    · rw [hbranch, List.map_map]
      rfl

/-- `C3` witness: a concrete two-pair list with distinct similarities,
and a concrete two-pair list with equal similarities where both
normalized values are `0.5`. -/
theorem normalize_similarities_spec_witness :
    (∀ q ∈ normalize_similarities_in_case [⟨0, 0, [], [], 0⟩, ⟨1, 1, [], [], 1⟩],
      0 ≤ q.simNorm ∧ q.simNorm ≤ 1) ∧
    (∀ q ∈ normalize_similarities_in_case [⟨0, 0, [], [], 1⟩, ⟨1, 1, [], [], 1⟩],
      q.simNorm = 1/2) :=
  ⟨(normalize_similarities_spec ⟨0, 0, [], [], 0⟩ [⟨1, 1, [], [], 1⟩]).1,
   (normalize_similarities_spec ⟨0, 0, [], [], 1⟩ [⟨1, 1, [], [], 1⟩]).2.1 (by
      simp [maxSim, minSim, simsOf])⟩

theorem containsNull_arr_cons {x : JVal} {xs : List JVal} :
    ContainsNull (.arr (x :: xs)) ↔ ContainsNull x ∨ ContainsNull (.arr xs) := by
  constructor
  · intro h
    cases h with
    | arr hmem hx =>
      rcases List.mem_cons.1 hmem with h1 | h1
      · exact Or.inl (h1 ▸ hx)
      · exact Or.inr (ContainsNull.arr h1 hx)
  · intro h
    rcases h with h | h
    · exact ContainsNull.arr (List.mem_cons_self _ _) h
    · cases h with
      | arr hmem hx => exact ContainsNull.arr (List.mem_cons_of_mem _ hmem) hx

theorem containsNull_obj_cons {k : String} {v : JVal} {xs : List (String × JVal)} :
    ContainsNull (.obj ((k, v) :: xs)) ↔ ContainsNull v ∨ ContainsNull (.obj xs) := by
  constructor
  · intro h
    cases h with
    | obj hmem hx =>
      rcases List.mem_cons.1 hmem with h1 | h1
      · injection h1 with h1a h1b
        exact Or.inl (h1b ▸ hx)
      · exact Or.inr (ContainsNull.obj h1 hx)
  · intro h
    rcases h with h | h
    · exact ContainsNull.obj (List.mem_cons_self _ _) h
    · cases h with
      | obj hmem hx => exact ContainsNull.obj (List.mem_cons_of_mem _ hmem) hx

theorem hasNone_iff_containsNull : ∀ v : JVal, has_none_values v = true ↔ ContainsNull v
  | .null => ⟨fun _ => ContainsNull.null, fun _ => by simp [has_none_values]⟩
  | .bool b =>
    ⟨fun h => by simp [has_none_values] at h, fun h => by cases h⟩
  | .num q =>
    ⟨fun h => by simp [has_none_values] at h, fun h => by cases h⟩
  | .str s =>
    ⟨fun h => by simp [has_none_values] at h, fun h => by cases h⟩
  | .arr [] =>
    ⟨fun h => by simp [has_none_values] at h,
     fun h => by cases h with | arr hmem hx => simp at hmem⟩
  | .arr (x :: xs) => by
    have ihx := hasNone_iff_containsNull x
    have ihxs := hasNone_iff_containsNull (.arr xs)
    simp only [has_none_values, Bool.or_eq_true]
    rw [ihx, ihxs, containsNull_arr_cons]
  | .obj [] =>
    ⟨fun h => by simp [has_none_values] at h,
     fun h => by cases h with | obj hmem hx => simp at hmem⟩
  | .obj ((k, v) :: xs) => by
    have ihv := hasNone_iff_containsNull v
    have ihxs := hasNone_iff_containsNull (.obj xs)
    simp only [has_none_values, Bool.or_eq_true]
    rw [ihv, ihxs, containsNull_obj_cons]

/-- `C7` (confirmed).  The `has_none_values` deep scan is exactly "a
null occurs anywhere in the nested structure", and the Case Validator
rejects any record containing one, recording the dedicated rejection
reason (rule 1) rather than crashing. -/
theorem validator_rejects_nulls (v : JVal) (fields : List (String × JVal)) :
    (has_none_values v = true ↔ ContainsNull v) ∧
    (ContainsNull (.obj fields) →
      "包含None值" ∈ caseRemoveReasons fields ∧ caseRemoveReasons fields ≠ []) := by
  refine ⟨hasNone_iff_containsNull v, fun h => ?_⟩
  have hn : has_none_values (.obj fields) = true := (hasNone_iff_containsNull _).2 h
  unfold caseRemoveReasons
  rw [if_pos hn]
  constructor
  · simp
  · simp

/-- `C7` witness: a record whose only null sits inside a pair of its
`task3_pairs` list is rejected with the null reason. -/
theorem validator_rejects_nulls_witness :
    "包含None值" ∈
      caseRemoveReasons [("task3_pairs", JVal.arr [JVal.obj [("predicted", JVal.null)]])] ∧
    caseRemoveReasons [("task3_pairs", JVal.arr [JVal.obj [("predicted", JVal.null)]])] ≠ [] :=
  (validator_rejects_nulls .null
      [("task3_pairs", JVal.arr [JVal.obj [("predicted", JVal.null)]])]).2
    (@ContainsNull.obj [("task3_pairs", JVal.arr [JVal.obj [("predicted", JVal.null)]])]
      "task3_pairs" (JVal.arr [JVal.obj [("predicted", JVal.null)]]) (by simp)
      (@ContainsNull.arr [JVal.obj [("predicted", JVal.null)]]
        (JVal.obj [("predicted", JVal.null)]) (by simp)
        (@ContainsNull.obj [("predicted", JVal.null)] "predicted" JVal.null (by simp)
          ContainsNull.null)))

theorem append_ne_empty_left (a b : String) (ha : a ≠ "") : a ++ b ≠ "" := by
  intro h
  have hlen := congrArg String.length h
  rw [String.length_append] at hlen
  have h0 : a.length = 0 := by simp at hlen; omega
  have hdl : a.data.length = 0 := by rw [String.length_data]; exact h0
  have hdata : a.data = [] := List.length_eq_zero.1 hdl
  apply ha
  cases a with
  | mk d =>
    simp only [String.data] at hdata
    subst hdata
    rfl

theorem pairFieldIssue_none_iff (i : ℕ) (fs : List (String × JVal)) :
    ∀ l : List String,
      (pairFieldIssue i fs l = none ↔
        ∀ f ∈ l, jHasKey fs f = true ∧ jvalBeq (jGetD fs f .null) .null = false) := by
  intro l
  induction l with
  | nil => simp [pairFieldIssue]
  | cons f fsl ih =>
    by_cases h1 : jHasKey fs f = true
    · by_cases h2 : jvalBeq (jGetD fs f .null) .null = true
      · simp [pairFieldIssue, h1, h2]
      · simp [pairFieldIssue, h1, h2, ih]
    · simp [pairFieldIssue, h1]

theorem pairFieldIssue_some_ne (i : ℕ) (fs : List (String × JVal)) :
    ∀ (l : List String) (r : String), pairFieldIssue i fs l = some r → r ≠ "" := by
  intro l
  induction l with
  | nil => simp [pairFieldIssue]
  | cons f fsl ih =>
    intro r hr
    simp only [pairFieldIssue] at hr
    by_cases h1 : jHasKey fs f = true
    · rw [if_neg (by simp [h1])] at hr
      by_cases h2 : jvalBeq (jGetD fs f .null) .null = true
      · rw [if_pos h2] at hr
        injection hr with heq
        rw [← heq]
        exact append_ne_empty_left _ _ (append_ne_empty_left _ _ (append_ne_empty_left _ _
          (append_ne_empty_left _ _ (by decide))))
      · rw [if_neg h2] at hr
        exact ih r hr
    · rw [if_pos (by simp [h1])] at hr
      injection hr with heq
      rw [← heq]
      exact append_ne_empty_left _ _ (append_ne_empty_left _ _ (append_ne_empty_left _ _
        (append_ne_empty_left _ _ (by decide))))

theorem pairsIssue_none_iff :
    ∀ (l : List JVal) (i : ℕ),
      (pairsIssue i l = none ↔
        ∀ p ∈ l, ∃ fs, p = .obj fs ∧
          ∀ f ∈ reqPairFields,
            jHasKey fs f = true ∧ jvalBeq (jGetD fs f .null) .null = false) := by
  intro l
  induction l with
  | nil => simp [pairsIssue]
  | cons p rest ih =>
    intro i
    cases p with
    | obj fs =>
      rcases hpf : pairFieldIssue i fs reqPairFields
        with _ | r
      · have hfields := (pairFieldIssue_none_iff i fs _).1 hpf
        simp only [pairsIssue, hpf]
        rw [ih (i + 1)]
        constructor
        · intro hall
          intro q hq
          rcases List.mem_cons.1 hq with h | h
          · exact ⟨fs, h, fun f hf => hfields f hf⟩
          · exact hall q h
        · intro hall q hq
          exact hall q (List.mem_cons_of_mem _ hq)
      · simp only [pairsIssue, hpf]
        constructor
        · intro hcon
          exact absurd hcon (by simp)
        · intro hall
          obtain ⟨fs2, hfs2, hflds⟩ := hall (.obj fs) (List.mem_cons_self _ _)
          injection hfs2 with hfs2e
          subst hfs2e
          have hnone := (pairFieldIssue_none_iff i fs reqPairFields).2 fun f hf => hflds f hf
          rw [hpf] at hnone
          exact absurd hnone (by simp)
    | null =>
      simp only [pairsIssue]
      constructor
      · intro hcon; exact absurd hcon (by simp)
      · intro hall
        obtain ⟨fs, hfs, _⟩ := hall .null (List.mem_cons_self _ _)
        exact absurd hfs (by simp)
    | bool b =>
      simp only [pairsIssue]
      constructor
      · intro hcon; exact absurd hcon (by simp)
      · intro hall
        obtain ⟨fs, hfs, _⟩ := hall (.bool b) (List.mem_cons_self _ _)
        exact absurd hfs (by simp)
    | num q =>
      simp only [pairsIssue]
      constructor
      · intro hcon; exact absurd hcon (by simp)
      · intro hall
        obtain ⟨fs, hfs, _⟩ := hall (.num q) (List.mem_cons_self _ _)
        exact absurd hfs (by simp)
    | str s =>
      simp only [pairsIssue]
      constructor
      · intro hcon; exact absurd hcon (by simp)
      · intro hall
        obtain ⟨fs, hfs, _⟩ := hall (.str s) (List.mem_cons_self _ _)
        exact absurd hfs (by simp)
    | arr a =>
      simp only [pairsIssue]
      constructor
      · intro hcon; exact absurd hcon (by simp)
      · intro hall
        obtain ⟨fs, hfs, _⟩ := hall (.arr a) (List.mem_cons_self _ _)
        exact absurd hfs (by simp)

theorem pairsIssue_some_ne :
    ∀ (l : List JVal) (i : ℕ) (r : String), pairsIssue i l = some r → r ≠ "" := by
  intro l
  induction l with
  | nil => simp [pairsIssue]
  | cons p rest ih =>
    intro i r hr
    cases p with
    | obj fs =>
      rcases hpf : pairFieldIssue i fs reqPairFields
        with _ | r2
      · simp only [pairsIssue, hpf] at hr
        exact ih (i + 1) r hr
      · simp only [pairsIssue, hpf, Option.some.injEq] at hr
        subst hr
        exact pairFieldIssue_some_ne i fs _ r2 hpf
    | null =>
      simp only [pairsIssue, Option.some.injEq] at hr
      rw [← hr]
      exact append_ne_empty_left _ _ (append_ne_empty_left _ _ (by decide))
    | bool b =>
      simp only [pairsIssue, Option.some.injEq] at hr
      rw [← hr]
      exact append_ne_empty_left _ _ (append_ne_empty_left _ _ (by decide))
    | num q =>
      simp only [pairsIssue, Option.some.injEq] at hr
      rw [← hr]
      exact append_ne_empty_left _ _ (append_ne_empty_left _ _ (by decide))
    | str s =>
      simp only [pairsIssue, Option.some.injEq] at hr
      rw [← hr]
      exact append_ne_empty_left _ _ (append_ne_empty_left _ _ (by decide))
    | arr a =>
      simp only [pairsIssue, Option.some.injEq] at hr
      rw [← hr]
      exact append_ne_empty_left _ _ (append_ne_empty_left _ _ (by decide))

/-- `C8` (confirmed).  `validate_task3_pairs` accepts a pair list
exactly when it has two entries, each entry is a dictionary carrying all
four required fields with non-null values, the two `pair_id`s differ,
and the two pairs differ in (predicted, ground_truth) content; every
violation is rejected with a non-empty reason. -/
theorem validate_task3_pairs_spec (pairs : List JVal) :
    ((validate_task3_pairs pairs).1 = true ↔
      (pairs.length = 2 ∧
       (∀ p ∈ pairs, ∃ fs, p = .obj fs ∧
         ∀ f ∈ reqPairFields,
           jHasKey fs f = true ∧ jvalBeq (jGetD fs f .null) .null = false) ∧
       jvalBeq (jGetD (jFields (pairs.getD 0 .null)) "pair_id" .null)
         (jGetD (jFields (pairs.getD 1 .null)) "pair_id" .null) = false ∧
       ¬(jvalBeq (jGetD (jFields (pairs.getD 0 .null)) "predicted" .null)
           (jGetD (jFields (pairs.getD 1 .null)) "predicted" .null) = true ∧
         jvalBeq (jGetD (jFields (pairs.getD 0 .null)) "ground_truth" .null)
           (jGetD (jFields (pairs.getD 1 .null)) "ground_truth" .null) = true))) ∧
    ((validate_task3_pairs pairs).1 = false → (validate_task3_pairs pairs).2 ≠ "") := by
  by_cases hlen : pairs.length = 2
  · obtain ⟨p1, p2, rfl⟩ := List.length_eq_two.1 hlen
    simp only [validate_task3_pairs, List.getD_cons_zero, List.getD_cons_succ]
    rw [if_neg (by simp)]
    rcases hpi : pairsIssue 0 [p1, p2] with _ | r
    · simp only []
      by_cases hid : jvalBeq (jGetD (jFields p1) "pair_id" .null)
          (jGetD (jFields p2) "pair_id" .null) = true
      · rw [if_pos hid]
        constructor
        · apply iff_of_false (by simp)
          intro hR
          rw [hR.2.2.1] at hid
          cases hid
        · intro _
          decide
      · rw [if_neg hid]
        by_cases hcont : (jvalBeq (jGetD (jFields p1) "predicted" .null)
            (jGetD (jFields p2) "predicted" .null) &&
          jvalBeq (jGetD (jFields p1) "ground_truth" .null)
            (jGetD (jFields p2) "ground_truth" .null)) = true
        · rw [if_pos hcont]
          constructor
          · apply iff_of_false (by simp)
            intro hR
            exact hR.2.2.2 (by rw [Bool.and_eq_true] at hcont; exact hcont)
          · intro _
            decide
        · rw [if_neg hcont]
          constructor
          · apply iff_of_true rfl
            refine ⟨rfl, (pairsIssue_none_iff [p1, p2] 0).1 hpi, ?_, ?_⟩
            · revert hid
              cases jvalBeq (jGetD (jFields p1) "pair_id" .null)
                (jGetD (jFields p2) "pair_id" .null) <;> simp
            · intro hcon
              exact hcont (by rw [Bool.and_eq_true]; exact hcon)
          · intro hfalse
            cases hfalse
    · simp only []
      constructor
      · apply iff_of_false (by simp)
        intro hR
        have hnone := (pairsIssue_none_iff [p1, p2] 0).2 hR.2.1
        rw [hpi] at hnone
        exact absurd hnone (by simp)
      · intro _
        exact pairsIssue_some_ne [p1, p2] 0 r hpi
  · have hbranch : validate_task3_pairs pairs =
        (false, s!"task3_pairs数量必须为2个 (当前: {pairs.length})") := by
      unfold validate_task3_pairs
      rw [if_pos hlen]
    rw [hbranch]
    constructor
    · apply iff_of_false (by simp)
      intro hR
      exact hlen hR.1
    · intro _
      exact append_ne_empty_left _ _ (append_ne_empty_left _ _ (by decide))

/-- `C8` witness: a concrete well-formed pair list is accepted. -/
theorem validate_task3_pairs_spec_witness :
    (validate_task3_pairs
      [JVal.obj [("pair_id", .str "A"), ("predicted", .str "eczema"),
                 ("ground_truth", .str "psoriasis"), ("similarity", .num 1)],
       JVal.obj [("pair_id", .str "B"), ("predicted", .str "acne"),
                 ("ground_truth", .str "rosacea"), ("similarity", .num 0)]]).1 = true := by
  apply (validate_task3_pairs_spec _).1.2
  refine ⟨rfl, ?_, by decide, by decide⟩
  intro p hp
  rcases List.mem_cons.1 hp with h | h
  · exact ⟨_, h, by decide⟩
  · rcases List.mem_cons.1 h with h2 | h2
    · exact ⟨_, h2, by decide⟩
    · exact absurd h2 (by simp)

theorem defaultEntry_spec (l : List (List Char)) (ph : List Char) (i : ℕ) :
    ∃ v, defaultEntry l ph i = some v ∧ (l = [] → v = ph) := by
  unfold defaultEntry
  by_cases hl : l = []
  · rw [if_neg (by simp [hl])]
    exact ⟨ph, rfl, fun _ => rfl⟩
  · rw [if_pos hl]
    have hidx : defaultIdx l i < l.length := by
      have : l.length ≠ 0 := fun h => hl (List.length_eq_zero.1 h)
      unfold defaultIdx
      rw [if_pos hl]
      omega
    rw [List.get?_eq_get hidx]
    exact ⟨_, rfl, fun hcon => absurd hcon hl⟩

theorem defaultPair_spec (pred truth : List (List Char)) (mat : Option (List (List ℚ)))
    (i : ℕ) :
    ∃ o : OutPair, defaultPair pred truth mat i = some o ∧
      o.pair_id = Char.ofNat (65 + i) ∧ o.simOrig = none ∧
      (pred = [] → o.predicted = noPredStr) ∧ (truth = [] → o.ground_truth = noTruthStr) := by
  obtain ⟨p, hpE, hpPh⟩ := defaultEntry_spec pred noPredStr i
  obtain ⟨t, htE, htPh⟩ := defaultEntry_spec truth noTruthStr i
  unfold defaultPair
  rw [hpE, htE]
  exact ⟨_, rfl, rfl, rfl, fun h => hpPh h, fun h => htPh h⟩

theorem create_default_pairs_spec (pred truth : List (List Char))
    (mat : Option (List (List ℚ))) :
    ∃ a b : OutPair, create_default_pairs pred truth mat = some [a, b] ∧
      a.pair_id = 'A' ∧ b.pair_id = 'B' ∧
      (pred = [] → a.predicted = noPredStr ∧ b.predicted = noPredStr) ∧
      (truth = [] → a.ground_truth = noTruthStr ∧ b.ground_truth = noTruthStr) := by
  obtain ⟨a, ha, hai, _, hap, hat⟩ := defaultPair_spec pred truth mat 0
  obtain ⟨b, hb, hbi, _, hbp, hbt⟩ := defaultPair_spec pred truth mat 1
  refine ⟨a, b, ?_, ?_, ?_, fun h => ⟨hap h, hbp h⟩, fun h => ⟨hat h, hbt h⟩⟩
  · unfold create_default_pairs
    rw [ha, hb]
    rfl
  · rw [hai]
  · rw [hbi]

theorem normalize_similarities_length (l : List CandPair) :
    (normalize_similarities_in_case l).length = l.length := by
  cases l with
  | nil => rfl
  | cons p ps =>
    simp only [normalize_similarities_in_case]
    by_cases h : maxSim p ps - minSim p ps < 1/1000000
    · rw [if_pos h, List.length_map]
    · rw [if_neg h, List.length_map]

/-- `C10` (confirmed).  For every pair of input lists (including empty
and singleton lists) and any optional matrix, `generate_task3_pairs`
returns exactly two pair records, the first with pair_id `'A'` and the
second with `'B'`, without raising; an empty predicted (resp. truth)
list makes the default-pair fallback substitute the fixed placeholder
diagnosis for both pairs. -/
theorem generate_task3_pairs_total (pred truth : List (List Char))
    (mat : Option (List (List ℚ))) (shuffle : List NormPair → List NormPair)
    (hs : ∀ l, (shuffle l).length = l.length) :
    ∃ a b : OutPair, generate_task3_pairs pred truth mat shuffle = some [a, b] ∧
      a.pair_id = 'A' ∧ b.pair_id = 'B' ∧
      (pred = [] → a.predicted = noPredStr ∧ b.predicted = noPredStr) ∧
      (truth = [] → a.ground_truth = noTruthStr ∧ b.ground_truth = noTruthStr) := by
  unfold generate_task3_pairs
  by_cases hsmall : pred.length < 2 ∨ truth.length < 2
  · rw [if_pos hsmall]
    exact create_default_pairs_spec pred truth mat
  · rw [if_neg hsmall]
    push_neg at hsmall
    have hnp : pred ≠ [] := by
      intro h
      rw [h] at hsmall
      simp at hsmall
    have hnt : truth ≠ [] := by
      intro h
      rw [h] at hsmall
      simp at hsmall
    by_cases hall : (allPairsPhase pred truth mat).length < 2
    · rw [if_pos hall]
      exact create_default_pairs_spec pred truth mat
    · rw [if_neg hall]
      rcases hsel : (selectCombo (normalize_similarities_in_case
          (allPairsPhase pred truth mat))).2 with _ | pq
      · have hlen2 : 2 ≤ (shuffle (normalize_similarities_in_case
            (allPairsPhase pred truth mat))).length := by
          rw [hs, normalize_similarities_length]
          omega
        rw [List.get?_eq_get (by omega), List.get?_eq_get (by omega : 1 < _)]
        exact ⟨_, _, rfl, rfl, rfl, fun h => absurd h hnp, fun h => absurd h hnt⟩
      · obtain ⟨p1, p2⟩ := pq
        exact ⟨_, _, rfl, rfl, rfl, fun h => absurd h hnp, fun h => absurd h hnt⟩

/-- `C10` witness: both lists empty, no matrix, identity shuffle: two
placeholder pairs `A`/`B` are produced. -/
theorem generate_task3_pairs_total_witness :
    ∃ a b : OutPair, generate_task3_pairs [] [] none id = some [a, b] ∧
      a.pair_id = 'A' ∧ b.pair_id = 'B' ∧
      ([] = ([] : List (List Char)) → a.predicted = noPredStr ∧ b.predicted = noPredStr) ∧
      ([] = ([] : List (List Char)) → a.ground_truth = noTruthStr ∧ b.ground_truth = noTruthStr) :=
  generate_task3_pairs_total [] [] none id fun _ => rfl

theorem matchFold_spec (evalN : List (List Char)) :
    ∀ (pool : List MedItem) (acc : Option MedItem × ℚ),
      (pool.foldl (matchStep evalN) acc = acc ∧
        ∀ m ∈ pool, medLabels m ≠ [] → matchScore evalN m ≤ acc.2) ∨
      (∃ l1 r l2, pool = l1 ++ r :: l2 ∧ medLabels r ≠ [] ∧
        acc.2 < matchScore evalN r ∧
        (∀ m ∈ l1, medLabels m ≠ [] → matchScore evalN m < matchScore evalN r) ∧
        (∀ m ∈ l2, medLabels m ≠ [] → matchScore evalN m ≤ matchScore evalN r) ∧
        pool.foldl (matchStep evalN) acc = (some r, matchScore evalN r)) := by
  intro pool
  induction pool with
  | nil =>
    intro acc
    left
    exact ⟨rfl, by simp⟩
  | cons m rest ih =>
    intro acc
    have hfold : (m :: rest).foldl (matchStep evalN) acc =
        rest.foldl (matchStep evalN) (matchStep evalN acc m) := rfl
    by_cases hlab : medLabels m = []
    · have hstep : matchStep evalN acc m = acc := by
        unfold matchStep
        rw [if_pos hlab]
      rcases ih acc with ⟨heq, hall⟩ | ⟨l1, r, l2, hsplit, hr, hgt, h1, h2, heq⟩
      · left
        refine ⟨by rw [hfold, hstep, heq], ?_⟩
        intro m2 hm2 hm2lab
        rcases List.mem_cons.1 hm2 with h | h
        · exact absurd (h ▸ hm2lab) (by simp [hlab])
        · exact hall m2 h hm2lab
      · right
        refine ⟨m :: l1, r, l2, by rw [hsplit, List.cons_append], hr, hgt, ?_, h2,
          by rw [hfold, hstep, heq]⟩
        intro m2 hm2 hm2lab
        rcases List.mem_cons.1 hm2 with h | h
        · exact absurd (h ▸ hm2lab) (by simp [hlab])
        · exact h1 m2 h hm2lab
    · by_cases hbeats : matchScore evalN m > acc.2
      · have hstep : matchStep evalN acc m = (some m, matchScore evalN m) := by
          unfold matchStep
          rw [if_neg hlab, if_pos hbeats]
        rcases ih (some m, matchScore evalN m) with ⟨heq, hall⟩ |
          ⟨l1, r, l2, hsplit, hr, hgt, h1, h2, heq⟩
        · right
          refine ⟨[], m, rest, rfl, hlab, hbeats, by simp, ?_,
            by rw [hfold, hstep, heq]⟩
          intro m2 hm2 hm2lab
          exact hall m2 hm2 hm2lab
        · right
          have hmr : matchScore evalN m < matchScore evalN r := hgt
          refine ⟨m :: l1, r, l2, by rw [hsplit, List.cons_append], hr, lt_trans hbeats hmr, ?_, h2,
            by rw [hfold, hstep, heq]⟩
          intro m2 hm2 hm2lab
          rcases List.mem_cons.1 hm2 with h | h
          · exact h ▸ hmr
          · exact h1 m2 h hm2lab
      · have hstep : matchStep evalN acc m = acc := by
          unfold matchStep
          rw [if_neg hlab, if_neg hbeats]
        have hmle : matchScore evalN m ≤ acc.2 := le_of_not_lt hbeats
        rcases ih acc with ⟨heq, hall⟩ | ⟨l1, r, l2, hsplit, hr, hgt, h1, h2, heq⟩
        · left
          refine ⟨by rw [hfold, hstep, heq], ?_⟩
          intro m2 hm2 hm2lab
          rcases List.mem_cons.1 hm2 with h | h
          · exact h ▸ hmle
          · exact hall m2 h hm2lab
        · right
          refine ⟨m :: l1, r, l2, by rw [hsplit, List.cons_append], hr, hgt, ?_, h2,
            by rw [hfold, hstep, heq]⟩
          intro m2 hm2 hm2lab
          rcases List.mem_cons.1 hm2 with h | h
          · exact lt_of_le_of_lt (h ▸ hmle) hgt
          · exact h1 m2 h hm2lab

/-- `C4` (confirmed).  `match_case_by_gt` returns no match when the
eval record's ground-truth differential is empty; when it returns a
reference, that reference has `label_*` values, scores at least `0.5`,
strictly beats every reference before it (first-wins tie-break) and is
not beaten by any reference after it (highest score); when it returns
no match on a non-empty differential, every labelled reference scores
below `0.5`, signalling the positional fallback. -/
theorem match_case_by_gt_spec (evalGT : List (List Char)) (pool : List MedItem) :
    (evalGT = [] → match_case_by_gt evalGT pool = none) ∧
    (∀ r, match_case_by_gt evalGT pool = some r →
      1/2 ≤ matchScore (evalGT.map normalize_diagnosis) r ∧ medLabels r ≠ [] ∧
      ∃ l1 l2, pool = l1 ++ r :: l2 ∧
        (∀ m ∈ l1, medLabels m ≠ [] →
          matchScore (evalGT.map normalize_diagnosis) m <
            matchScore (evalGT.map normalize_diagnosis) r) ∧
        (∀ m ∈ l2, medLabels m ≠ [] →
          matchScore (evalGT.map normalize_diagnosis) m ≤
            matchScore (evalGT.map normalize_diagnosis) r)) ∧
    (evalGT ≠ [] → match_case_by_gt evalGT pool = none →
      ∀ m ∈ pool, medLabels m ≠ [] →
        matchScore (evalGT.map normalize_diagnosis) m < 1/2) := by
  by_cases hE : evalGT = []
  · refine ⟨fun _ => ?_, fun r hr => ?_, fun hne => absurd hE hne⟩
    · unfold match_case_by_gt
      rw [if_pos hE]
    · unfold match_case_by_gt at hr
      rw [if_pos hE] at hr
      cases hr
  · have hres : match_case_by_gt evalGT pool =
        (if (pool.foldl (matchStep (evalGT.map normalize_diagnosis)) (none, 0)).2 ≥ 1/2
          then (pool.foldl (matchStep (evalGT.map normalize_diagnosis)) (none, 0)).1
          else none) := by
      unfold match_case_by_gt
      rw [if_neg hE]
    refine ⟨fun hcon => absurd hcon hE, ?_, ?_⟩
    · intro r hr
      rw [hres] at hr
      rcases matchFold_spec (evalGT.map normalize_diagnosis) pool (none, 0) with
        ⟨heq, _⟩ | ⟨l1, r2, l2, hsplit, hr2, _, h1, h2, heq⟩
      · rw [heq] at hr
        by_cases hth : (0 : ℚ) ≥ 1/2
        · norm_num at hth
        · rw [if_neg (by norm_num)] at hr
          cases hr
      · rw [heq] at hr
        by_cases hth : matchScore (evalGT.map normalize_diagnosis) r2 ≥ 1/2
        · rw [if_pos hth] at hr
          injection hr with hinj
          subst hinj
          exact ⟨hth, hr2, l1, l2, hsplit, h1, h2⟩
        · rw [if_neg hth] at hr
          cases hr
    · intro _ hnone m hm hmlab
      rw [hres] at hnone
      rcases matchFold_spec (evalGT.map normalize_diagnosis) pool (none, 0) with
        ⟨_, hall⟩ | ⟨l1, r2, l2, hsplit, hr2, _, h1, h2, heq⟩
      · have hle0 : matchScore (evalGT.map normalize_diagnosis) m ≤ 0 := hall m hm hmlab
        linarith
      · rw [heq] at hnone
        by_cases hth : matchScore (evalGT.map normalize_diagnosis) r2 ≥ 1/2
        · rw [if_pos hth] at hnone
          cases hnone
        · push_neg at hth
          subst hsplit
          rcases List.mem_append.1 hm with h | h
          · exact lt_trans (h1 m h hmlab) hth
          · rcases List.mem_cons.1 h with h2a | h2a
            · rw [h2a]
              exact hth
            · exact lt_of_le_of_lt (h2 m h2a hmlab) hth

/-- `C4` witness: a single-label eval record against a one-reference
pool whose `label_1` matches exactly: score `1 ≥ 0.5`, the reference is
returned as first-and-best. -/
theorem match_case_by_gt_spec_witness :
    1/2 ≤ matchScore (["flu".toList].map normalize_diagnosis)
        ⟨[("label_1".toList, "flu".toList)]⟩ ∧
      medLabels (⟨[("label_1".toList, "flu".toList)]⟩ : MedItem) ≠ [] ∧
      ∃ l1 l2, ([⟨[("label_1".toList, "flu".toList)]⟩] : List MedItem) =
          l1 ++ (⟨[("label_1".toList, "flu".toList)]⟩ : MedItem) :: l2 ∧
        (∀ m ∈ l1, medLabels m ≠ [] →
          matchScore (["flu".toList].map normalize_diagnosis) m <
            matchScore (["flu".toList].map normalize_diagnosis)
              ⟨[("label_1".toList, "flu".toList)]⟩) ∧
        (∀ m ∈ l2, medLabels m ≠ [] →
          matchScore (["flu".toList].map normalize_diagnosis) m ≤
            matchScore (["flu".toList].map normalize_diagnosis)
              ⟨[("label_1".toList, "flu".toList)]⟩) := by
  apply (match_case_by_gt_spec ["flu".toList] [⟨[("label_1".toList, "flu".toList)]⟩]).2.1
  have hlab : medLabels ⟨[("label_1".toList, "flu".toList)]⟩ = ["flu".toList] := by decide
  have hcnt : ((["flu".toList].map normalize_diagnosis).filter fun e =>
      (["flu".toList].map normalize_diagnosis).any fun g => diagnoses_match e g (4/5)).length
        = 1 := by decide
  have hscore : matchScore (["flu".toList].map normalize_diagnosis)
      ⟨[("label_1".toList, "flu".toList)]⟩ = 1 := by
    simp only [matchScore, hlab, hcnt]
    norm_num
  unfold match_case_by_gt
  rw [if_neg (by simp)]
  have hfold : ([⟨[("label_1".toList, "flu".toList)]⟩] : List MedItem).foldl
      (matchStep (["flu".toList].map normalize_diagnosis)) (none, 0) =
      (some ⟨[("label_1".toList, "flu".toList)]⟩, 1) := by
    show matchStep (["flu".toList].map normalize_diagnosis) (none, 0)
      ⟨[("label_1".toList, "flu".toList)]⟩ = _
    unfold matchStep
    rw [if_neg (by rw [hlab]; simp), hscore]
    rw [if_pos (by norm_num)]
  rw [hfold]
  rw [if_pos (by norm_num)]

theorem mem_comboList {n i j : ℕ} : (i, j) ∈ comboList n ↔ i < j ∧ j < n := by
  unfold comboList
  simp only [List.mem_flatMap, List.mem_map, List.mem_filter, List.mem_range]
  constructor
  · rintro ⟨a, ha, b, ⟨hb, hab⟩, heq⟩
    injection heq with h1 h2
    subst h1
    subst h2
    rw [decide_eq_true_eq] at hab
    exact ⟨hab, hb⟩
  · rintro ⟨hij, hjn⟩
    exact ⟨i, by omega, j, ⟨hjn, by simpa using hij⟩, rfl⟩

theorem comboList_pairwise (n : ℕ) : List.Pairwise lexLt (comboList n) := by
  unfold comboList
  rw [List.flatMap_def, List.pairwise_flatten]
  constructor
  · intro l hl
    obtain ⟨i, _, hi⟩ := List.mem_map.1 hl
    rw [← hi]
    apply List.Pairwise.map (R := (· < ·))
    · intro a b hab
      exact Or.inr ⟨rfl, hab⟩
    · exact (List.pairwise_lt_range n).filter _
  · apply List.Pairwise.map (R := (· < ·))
    · intro a b hab x hx y hy
      obtain ⟨xa, _, hxa⟩ := List.mem_map.1 hx
      obtain ⟨ya, _, hya⟩ := List.mem_map.1 hy
      rw [← hxa, ← hya]
      exact Or.inl hab
    · exact List.pairwise_lt_range n

theorem selStep_eq (np : List NormPair) (acc : ℚ × Option (NormPair × NormPair))
    (c : ℕ × ℕ) :
    selStep np acc c =
      if comboOk np c then
        (if comboDiff np c > acc.1 then
          (comboDiff np c, some (np.getD c.1 default, np.getD c.2 default)) else acc)
      else acc := rfl

theorem selFold_spec (np : List NormPair) :
    ∀ (L : List (ℕ × ℕ)) (v : ℚ) (oc : Option (NormPair × NormPair)),
      (L.foldl (selStep np) (v, oc) = (v, oc) ∧
        ∀ c ∈ L, comboOk np c → comboDiff np c ≤ v) ∨
      (∃ L1 c L2, L = L1 ++ c :: L2 ∧ comboOk np c ∧ v < comboDiff np c ∧
        (∀ x ∈ L1, comboOk np x → comboDiff np x < comboDiff np c) ∧
        (∀ x ∈ L2, comboOk np x → comboDiff np x ≤ comboDiff np c) ∧
        L.foldl (selStep np) (v, oc) =
          (comboDiff np c, some (np.getD c.1 default, np.getD c.2 default))) := by
  intro L
  induction L with
  | nil =>
    intro v oc
    left
    exact ⟨rfl, by simp⟩
  | cons c0 rest ih =>
    intro v oc
    have hfold : (c0 :: rest).foldl (selStep np) (v, oc) =
        rest.foldl (selStep np) (selStep np (v, oc) c0) := rfl
    by_cases hok : comboOk np c0
    · by_cases hbeats : comboDiff np c0 > v
      · have hstep : selStep np (v, oc) c0 =
            (comboDiff np c0, some (np.getD c0.1 default, np.getD c0.2 default)) := by
          rw [selStep_eq, if_pos hok, if_pos hbeats]
        rcases ih (comboDiff np c0) (some (np.getD c0.1 default, np.getD c0.2 default)) with
          ⟨heq, hall⟩ | ⟨L1, c, L2, hsplit, hcok, hgt, h1, h2, heq⟩
        · right
          refine ⟨[], c0, rest, rfl, hok, hbeats, by simp, hall, ?_⟩
          rw [hfold, hstep, heq]
        · right
          refine ⟨c0 :: L1, c, L2, by rw [hsplit, List.cons_append], hcok,
            lt_trans hbeats hgt, ?_, h2, by rw [hfold, hstep, heq]⟩
          intro x hx hxok
          rcases List.mem_cons.1 hx with h | h
          · exact h ▸ hgt
          · exact h1 x h hxok
      · have hstep : selStep np (v, oc) c0 = (v, oc) := by
          rw [selStep_eq, if_pos hok, if_neg hbeats]
        have hle : comboDiff np c0 ≤ v := le_of_not_lt hbeats
        rcases ih v oc with ⟨heq, hall⟩ | ⟨L1, c, L2, hsplit, hcok, hgt, h1, h2, heq⟩
        · left
          refine ⟨by rw [hfold, hstep, heq], ?_⟩
          intro x hx hxok
          rcases List.mem_cons.1 hx with h | h
          · exact h ▸ hle
          · exact hall x h hxok
        · right
          refine ⟨c0 :: L1, c, L2, by rw [hsplit, List.cons_append], hcok, hgt, ?_, h2,
            by rw [hfold, hstep, heq]⟩
          intro x hx hxok
          rcases List.mem_cons.1 hx with h | h
          · exact lt_of_le_of_lt (h ▸ hle) hgt
          · exact h1 x h hxok
    · have hstep : selStep np (v, oc) c0 = (v, oc) := by
        rw [selStep_eq, if_neg hok]
      rcases ih v oc with ⟨heq, hall⟩ | ⟨L1, c, L2, hsplit, hcok, hgt, h1, h2, heq⟩
      · left
        refine ⟨by rw [hfold, hstep, heq], ?_⟩
        intro x hx hxok
        rcases List.mem_cons.1 hx with h | h
        · exact absurd (h ▸ hxok) hok
        · exact hall x h hxok
      · right
        refine ⟨c0 :: L1, c, L2, by rw [hsplit, List.cons_append], hcok, hgt, ?_, h2,
          by rw [hfold, hstep, heq]⟩
        intro x hx hxok
        rcases List.mem_cons.1 hx with h | h
        · exact absurd (h ▸ hxok) hok
        · exact h1 x h hxok

theorem candPairs_round (pred truth : List (List Char)) (mat : Option (List (List ℚ)))
    (sameT overlapT : ℚ) :
    ∀ p ∈ candPairs pred truth mat sameT overlapT,
      ∃ k : ℤ, p.similarity = (k : ℚ) / 10000 := by
  intro p hp
  unfold candPairs at hp
  simp only [List.mem_flatMap, List.mem_filterMap] at hp
  obtain ⟨ip, _, jt, _, hmk⟩ := hp
  by_cases h1 : are_diagnoses_same ip.2 jt.2 sameT = true
  · rw [if_pos h1] at hmk
    cases hmk
  · rw [if_neg h1] at hmk
    by_cases h2 : has_high_content_overlap ip.2 jt.2 overlapT = true
    · rw [if_pos h2] at hmk
      cases hmk
    · rw [if_neg h2] at hmk
      injection hmk with he
      rw [← he]
      exact round4_is_int_div _

theorem allPairsPhase_round (pred truth : List (List Char))
    (mat : Option (List (List ℚ))) :
    ∀ p ∈ allPairsPhase pred truth mat, ∃ k : ℤ, p.similarity = (k : ℚ) / 10000 := by
  intro p hp
  unfold allPairsPhase at hp
  by_cases h : (candPairs pred truth mat (17/20) (7/10)).length < 2
  · rw [if_pos h] at hp
    rcases List.mem_append.1 hp with h2 | h2
    · exact candPairs_round pred truth mat (17/20) (7/10) p h2
    · exact candPairs_round pred truth mat (19/20) (4/5) p h2
  · rw [if_neg h] at hp
    exact candPairs_round pred truth mat (17/20) (7/10) p hp

theorem normalize_map_ex (l : List CandPair) :
    ∃ f : CandPair → NormPair, normalize_similarities_in_case l = l.map f ∧
      ∀ q, (f q).predIdx = q.predIdx ∧ (f q).truthIdx = q.truthIdx ∧
        (f q).predicted = q.predicted ∧ (f q).ground_truth = q.ground_truth ∧
        (f q).simOrig = q.similarity := by
  cases l with
  | nil =>
    exact ⟨fun q => ⟨q.predIdx, q.truthIdx, q.predicted, q.ground_truth, q.similarity,
      1/2, q.similarity⟩, rfl, fun q => ⟨rfl, rfl, rfl, rfl, rfl⟩⟩
  | cons p ps =>
    by_cases h : maxSim p ps - minSim p ps < 1/1000000
    · refine ⟨fun q => ⟨q.predIdx, q.truthIdx, q.predicted, q.ground_truth, q.similarity,
        1/2, q.similarity⟩, ?_, fun q => ⟨rfl, rfl, rfl, rfl, rfl⟩⟩
      simp only [normalize_similarities_in_case]
      rw [if_pos h]
    · refine ⟨fun q => ⟨q.predIdx, q.truthIdx, q.predicted, q.ground_truth,
        round4 ((q.similarity - minSim p ps) / (maxSim p ps - minSim p ps)),
        round4 ((q.similarity - minSim p ps) / (maxSim p ps - minSim p ps)),
        q.similarity⟩, ?_, fun q => ⟨rfl, rfl, rfl, rfl, rfl⟩⟩
      simp only [normalize_similarities_in_case]
      rw [if_neg h]

theorem normalize_diff_eq (l : List CandPair)
    (hround : ∀ p ∈ l, ∃ k : ℤ, p.similarity = (k : ℚ) / 10000) :
    ∀ p ∈ normalize_similarities_in_case l, ∀ q ∈ normalize_similarities_in_case l,
      |p.similarity - q.similarity| = |p.simNorm - q.simNorm| := by
  cases l with
  | nil =>
    intro p hp
    simp [normalize_similarities_in_case] at hp
  | cons p0 ps =>
    intro p hp q hq
    by_cases h : maxSim p0 ps - minSim p0 ps < 1/1000000
    · have hbr : normalize_similarities_in_case (p0 :: ps) = (p0 :: ps).map fun r =>
          ⟨r.predIdx, r.truthIdx, r.predicted, r.ground_truth, r.similarity, 1/2,
            r.similarity⟩ := by
        simp only [normalize_similarities_in_case]
        rw [if_pos h]
      rw [hbr] at hp hq
      obtain ⟨r, hrm, hr⟩ := List.mem_map.1 hp
      obtain ⟨s, hsm, hs⟩ := List.mem_map.1 hq
      rw [← hr, ← hs]
      have hrs : r.similarity = s.similarity := by
        apply round4_eq_of_close (hround r hrm) (hround s hsm)
        have h1 := @minSim_le p0 ps r hrm
        have h2 := @le_maxSim p0 ps r hrm
        have h3 := @minSim_le p0 ps s hsm
        have h4 := @le_maxSim p0 ps s hsm
        rw [abs_sub_lt_iff]
        constructor <;> linarith
      show |r.similarity - s.similarity| = |(1 : ℚ)/2 - 1/2|
      rw [hrs]
      simp
    · have hbr : normalize_similarities_in_case (p0 :: ps) = (p0 :: ps).map fun r =>
          ⟨r.predIdx, r.truthIdx, r.predicted, r.ground_truth,
            round4 ((r.similarity - minSim p0 ps) / (maxSim p0 ps - minSim p0 ps)),
            round4 ((r.similarity - minSim p0 ps) / (maxSim p0 ps - minSim p0 ps)),
            r.similarity⟩ := by
        simp only [normalize_similarities_in_case]
        rw [if_neg h]
      rw [hbr] at hp hq
      obtain ⟨r, _, hr⟩ := List.mem_map.1 hp
      obtain ⟨s, _, hs⟩ := List.mem_map.1 hq
      rw [← hr, ← hs]

/-- `C1` (confirmed).  When both differential lists have at least two
entries and at least two candidate pairs with disjoint prediction and
truth indices survive filtering (the strict pass together with the
relaxed retry appended when the strict pass yields fewer than two
pairs), the Pair Selector returns the combination, among all enumerated combinations with
disjoint prediction indices and disjoint truth indices, that maximizes
the absolute difference of normalized similarity, breaking ties in
favour of the first combination in ascending enumeration order, and
outputs its two pairs as `A` and `B`. -/
theorem generate_task3_pairs_selection (pred truth : List (List Char))
    (mat : Option (List (List ℚ))) (shuffle : List NormPair → List NormPair)
    (hp : 2 ≤ pred.length) (ht : 2 ≤ truth.length)
    (hd : ∃ i j, i < j ∧ j < (allPairsPhase pred truth mat).length ∧
      ((allPairsPhase pred truth mat).getD i default).predIdx ≠
        ((allPairsPhase pred truth mat).getD j default).predIdx ∧
      ((allPairsPhase pred truth mat).getD i default).truthIdx ≠
        ((allPairsPhase pred truth mat).getD j default).truthIdx) :
    ∃ i j, i < j ∧
      j < (normalize_similarities_in_case (allPairsPhase pred truth mat)).length ∧
      comboOk (normalize_similarities_in_case (allPairsPhase pred truth mat))
        (i, j) ∧
      (∀ k l, k < l →
        l < (normalize_similarities_in_case
          (allPairsPhase pred truth mat)).length →
        comboOk (normalize_similarities_in_case
          (allPairsPhase pred truth mat)) (k, l) →
        comboDiffN (normalize_similarities_in_case
            (allPairsPhase pred truth mat)) (k, l) ≤
          comboDiffN (normalize_similarities_in_case
            (allPairsPhase pred truth mat)) (i, j)) ∧
      (∀ k l, k < l →
        l < (normalize_similarities_in_case
          (allPairsPhase pred truth mat)).length →
        comboOk (normalize_similarities_in_case
          (allPairsPhase pred truth mat)) (k, l) →
        (k, l) ≠ (i, j) →
        comboDiffN (normalize_similarities_in_case
            (allPairsPhase pred truth mat)) (k, l) =
          comboDiffN (normalize_similarities_in_case
            (allPairsPhase pred truth mat)) (i, j) →
        lexLt (i, j) (k, l)) ∧
      generate_task3_pairs pred truth mat shuffle =
        some [⟨'A',
            ((normalize_similarities_in_case
              (allPairsPhase pred truth mat)).getD i default).predicted,
            ((normalize_similarities_in_case
              (allPairsPhase pred truth mat)).getD i default).ground_truth,
            round4 ((normalize_similarities_in_case
              (allPairsPhase pred truth mat)).getD i default).similarity,
            some ((normalize_similarities_in_case
              (allPairsPhase pred truth mat)).getD i default).simOrig⟩,
          ⟨'B',
            ((normalize_similarities_in_case
              (allPairsPhase pred truth mat)).getD j default).predicted,
            ((normalize_similarities_in_case
              (allPairsPhase pred truth mat)).getD j default).ground_truth,
            round4 ((normalize_similarities_in_case
              (allPairsPhase pred truth mat)).getD j default).similarity,
            some ((normalize_similarities_in_case
              (allPairsPhase pred truth mat)).getD j default).simOrig⟩] := by
  obtain ⟨i0, j0, hij0, hj0, hdp0, hdt0⟩ := hd
  have hlen2 : 2 ≤ (allPairsPhase pred truth mat).length := by omega
  have hnlen : (normalize_similarities_in_case
      (allPairsPhase pred truth mat)).length =
      (allPairsPhase pred truth mat).length :=
    normalize_similarities_length _
  obtain ⟨f, hfmap, hfprop⟩ := normalize_map_ex (allPairsPhase pred truth mat)
  have hgetD : ∀ k, k < (allPairsPhase pred truth mat).length →
      (normalize_similarities_in_case (allPairsPhase pred truth mat)).getD k
        default = f ((allPairsPhase pred truth mat).getD k default) := by
    intro k hk
    rw [hfmap, List.getD_eq_getElem _ _ (by simpa using hk),
      List.getD_eq_getElem _ _ hk, List.getElem_map]
  have hdiffEq : ∀ k l, k < (allPairsPhase pred truth mat).length →
      l < (allPairsPhase pred truth mat).length →
      comboDiff (normalize_similarities_in_case
        (allPairsPhase pred truth mat)) (k, l) =
      comboDiffN (normalize_similarities_in_case
        (allPairsPhase pred truth mat)) (k, l) := by
    intro k l hk hl
    unfold comboDiff comboDiffN
    apply normalize_diff_eq _ (allPairsPhase_round pred truth mat)
    · rw [List.getD_eq_getElem _ _ (by omega : k < _)]
      · exact List.getElem_mem _
    · rw [List.getD_eq_getElem _ _ (by omega : l < _)]
      · exact List.getElem_mem _
  have hok0 : comboOk (normalize_similarities_in_case
      (allPairsPhase pred truth mat)) (i0, j0) := by
    unfold comboOk disjointPair
    rw [hgetD i0 (by omega), hgetD j0 (by omega)]
    rw [(hfprop _).1, (hfprop _).1, (hfprop _).2.1, (hfprop _).2.1]
    exact ⟨hdp0, hdt0⟩
  have hmem0 : (i0, j0) ∈ comboList (normalize_similarities_in_case
      (allPairsPhase pred truth mat)).length := by
    rw [mem_comboList, hnlen]
    exact ⟨hij0, hj0⟩
  rcases selFold_spec (normalize_similarities_in_case
      (allPairsPhase pred truth mat))
      (comboList (normalize_similarities_in_case
        (allPairsPhase pred truth mat)).length) (-1) none with
    ⟨_, hall⟩ | ⟨L1, c, L2, hsplit, hcok, _, h1, h2, heq⟩
  · exfalso
    have := hall (i0, j0) hmem0 hok0
    have h0 : (0 : ℚ) ≤ comboDiff (normalize_similarities_in_case
        (allPairsPhase pred truth mat)) (i0, j0) := abs_nonneg _
    linarith
  · have hcmem : c ∈ comboList (normalize_similarities_in_case
        (allPairsPhase pred truth mat)).length := by
      rw [hsplit]
      exact List.mem_append.2 (Or.inr (List.mem_cons_self _ _))
    obtain ⟨hcij, hclen⟩ : c.1 < c.2 ∧ c.2 < (normalize_similarities_in_case
        (allPairsPhase pred truth mat)).length := by
      have := hcmem
      rw [show c = (c.1, c.2) from rfl, mem_comboList] at this
      exact this
    have hmax : ∀ k l, k < l →
        l < (normalize_similarities_in_case
          (allPairsPhase pred truth mat)).length →
        comboOk (normalize_similarities_in_case
          (allPairsPhase pred truth mat)) (k, l) →
        comboDiff (normalize_similarities_in_case
            (allPairsPhase pred truth mat)) (k, l) ≤
          comboDiff (normalize_similarities_in_case
            (allPairsPhase pred truth mat)) c := by
      intro k l hkl hllen hokkl
      have hklmem : (k, l) ∈ comboList (normalize_similarities_in_case
          (allPairsPhase pred truth mat)).length :=
        mem_comboList.2 ⟨hkl, hllen⟩
      rw [hsplit] at hklmem
      rcases List.mem_append.1 hklmem with hmem | hmem
      · exact le_of_lt (h1 _ hmem hokkl)
      · rcases List.mem_cons.1 hmem with hmem2 | hmem2
        · rw [hmem2]
        · exact h2 _ hmem2 hokkl
    have hpw := comboList_pairwise (normalize_similarities_in_case
        (allPairsPhase pred truth mat)).length
    rw [hsplit] at hpw
    have hpost : ∀ x ∈ L2, lexLt c x :=
      (List.pairwise_cons.1 (List.pairwise_append.1 hpw).2.1).1
    refine ⟨c.1, c.2, hcij, hclen, ?_, ?_, ?_, ?_⟩
    · rw [← show (c.1, c.2) = c from rfl] at hcok
      exact hcok
    · intro k l hkl hllen hokkl
      rw [← hdiffEq k l (by omega) (by omega), ← hdiffEq c.1 c.2 (by omega) (by omega)]
      rw [show (c.1, c.2) = c from rfl]
      exact hmax k l hkl hllen hokkl
    · intro k l hkl hllen hokkl hne hdiffeq
      have hklmem : (k, l) ∈ comboList (normalize_similarities_in_case
          (allPairsPhase pred truth mat)).length :=
        mem_comboList.2 ⟨hkl, hllen⟩
      rw [hsplit] at hklmem
      rcases List.mem_append.1 hklmem with hmem | hmem
      · exfalso
        have hlt := h1 _ hmem hokkl
        rw [hdiffEq k l (by omega) (by omega),
          hdiffEq c.1 c.2 (by omega) (by omega)] at hlt
        rw [show (c.1, c.2) = c from rfl] at hlt
        rw [hdiffeq] at hlt
        exact lt_irrefl _ hlt
      · rcases List.mem_cons.1 hmem with hmem2 | hmem2
        · exact absurd (by rw [hmem2]) hne
        · have := hpost _ hmem2
          unfold lexLt at this ⊢
          omega
    · unfold generate_task3_pairs
      rw [if_neg (by omega)]
      rw [if_neg (by omega)]
      have hsel2 : (selectCombo (normalize_similarities_in_case
          (allPairsPhase pred truth mat))).2 =
          some ((normalize_similarities_in_case
              (allPairsPhase pred truth mat)).getD c.1 default,
            (normalize_similarities_in_case
              (allPairsPhase pred truth mat)).getD c.2 default) := by
        unfold selectCombo
        rw [heq]
      rw [hsel2]

theorem ads_false (d1 d2 : List Char) (t : ℚ)
    (hne : normalize_diagnosis d1 ≠ normalize_diagnosis d2)
    (hinter : ((splitWs (normalize_diagnosis d1)).toFinset ∩
      (splitWs (normalize_diagnosis d2)).toFinset).card = 0)
    (hni1 : ¬(normalize_diagnosis d1 <:+: normalize_diagnosis d2))
    (hni2 : ¬(normalize_diagnosis d2 <:+: normalize_diagnosis d1))
    (ht : 0 < t) :
    are_diagnoses_same d1 d2 t = false := by
  unfold are_diagnoses_same
  by_cases hemp : d1 = [] ∨ d2 = []
  · rw [if_pos hemp]
  · rw [if_neg hemp, if_neg hne]
    by_cases hw : (splitWs (normalize_diagnosis d1)).toFinset = ∅ ∨
        (splitWs (normalize_diagnosis d2)).toFinset = ∅
    · rw [if_pos hw]
    · rw [if_neg hw]
      rw [if_neg, if_neg]
      · intro hcon
        rcases hcon.1 with h | h
        · exact hni1 (by simpa using h)
        · exact hni2 (by simpa using h)
      · intro hcon
        rw [hinter] at hcon
        by_cases hu : ((splitWs (normalize_diagnosis d1)).toFinset ∪
            (splitWs (normalize_diagnosis d2)).toFinset).card > 0
        · rw [if_pos hu] at hcon
          simp only [Nat.cast_zero, zero_div] at hcon
          linarith
        · rw [if_neg hu] at hcon
          linarith

theorem hho_false (d1 d2 : List Char) (t : ℚ)
    (hinter : ((splitWs (normalize_diagnosis d1)).toFinset ∩
      (splitWs (normalize_diagnosis d2)).toFinset).card = 0)
    (ht : 0 < t) :
    has_high_content_overlap d1 d2 t = false := by
  unfold has_high_content_overlap
  by_cases hemp : d1 = [] ∨ d2 = []
  · rw [if_pos hemp]
  · rw [if_neg hemp]
    by_cases hw : (splitWs (normalize_diagnosis d1)).toFinset = ∅ ∨
        (splitWs (normalize_diagnosis d2)).toFinset = ∅
    · rw [if_pos hw]
    · rw [if_neg hw]
      rw [if_neg, if_neg]
      · by_cases hsm : (splitWs (normalize_diagnosis d1)).toFinset.card ≤
            (splitWs (normalize_diagnosis d2)).toFinset.card
        · rw [if_pos hsm, if_pos hsm, hinter]
          intro hcon
          simp only [Nat.cast_zero, zero_div] at hcon
          linarith
        · rw [if_neg hsm, if_neg hsm, Finset.inter_comm, hinter]
          intro hcon
          simp only [Nat.cast_zero, zero_div] at hcon
          linarith
      · intro hcon
        rw [hinter] at hcon
        by_cases hu : ((splitWs (normalize_diagnosis d1)).toFinset ∪
            (splitWs (normalize_diagnosis d2)).toFinset).card > 0
        · rw [if_pos hu] at hcon
          simp only [Nat.cast_zero, zero_div] at hcon
          linarith
        · rw [if_neg hu] at hcon
          linarith

theorem candPairs_demo :
    candPairs ["aa".toList, "bb".toList] ["cc".toList, "dd".toList]
        (some [[0, 1], [1, 0]]) (17/20) (7/10) =
      [⟨0, 0, "aa".toList, "cc".toList, round4 0⟩,
       ⟨0, 1, "aa".toList, "dd".toList, round4 1⟩,
       ⟨1, 0, "bb".toList, "cc".toList, round4 1⟩,
       ⟨1, 1, "bb".toList, "dd".toList, round4 0⟩] := by
  have f1 := ads_false "aa".toList "cc".toList (17/20) (by decide) (by decide)
    (by decide) (by decide) (by norm_num)
  have f2 := ads_false "aa".toList "dd".toList (17/20) (by decide) (by decide)
    (by decide) (by decide) (by norm_num)
  have f3 := ads_false "bb".toList "cc".toList (17/20) (by decide) (by decide)
    (by decide) (by decide) (by norm_num)
  have f4 := ads_false "bb".toList "dd".toList (17/20) (by decide) (by decide)
    (by decide) (by decide) (by norm_num)
  have g1 := hho_false "aa".toList "cc".toList (7/10) (by decide) (by norm_num)
  have g2 := hho_false "aa".toList "dd".toList (7/10) (by decide) (by norm_num)
  have g3 := hho_false "bb".toList "cc".toList (7/10) (by decide) (by norm_num)
  have g4 := hho_false "bb".toList "dd".toList (7/10) (by decide) (by norm_num)
  unfold candPairs
  simp only [List.enum, List.enumFrom, List.flatMap_cons, List.flatMap_nil,
    List.filterMap_cons, List.filterMap_nil, f1, f2, f3, f4, g1, g2, g3, g4,
    Bool.false_eq_true, if_false, List.append_nil]
  have hs1 : simLookup (some [[0, 1], [1, 0]]) 0 0 "aa".toList "cc".toList = 0 := by
    simp only [simLookup]
    rw [if_pos (by refine ⟨by simp, by decide, by decide⟩)]
    rfl
  have hs2 : simLookup (some [[0, 1], [1, 0]]) 0 1 "aa".toList "dd".toList = 1 := by
    simp only [simLookup]
    rw [if_pos (by refine ⟨by simp, by decide, by decide⟩)]
    rfl
  have hs3 : simLookup (some [[0, 1], [1, 0]]) 1 0 "bb".toList "cc".toList = 1 := by
    simp only [simLookup]
    rw [if_pos (by refine ⟨by simp, by decide, by decide⟩)]
    rfl
  have hs4 : simLookup (some [[0, 1], [1, 0]]) 1 1 "bb".toList "dd".toList = 0 := by
    simp only [simLookup]
    rw [if_pos (by refine ⟨by simp, by decide, by decide⟩)]
    rfl
  rw [hs1, hs2, hs3, hs4]
  rfl

theorem allPairsPhase_demo :
    allPairsPhase ["aa".toList, "bb".toList] ["cc".toList, "dd".toList]
        (some [[0, 1], [1, 0]]) =
      [⟨0, 0, "aa".toList, "cc".toList, round4 0⟩,
       ⟨0, 1, "aa".toList, "dd".toList, round4 1⟩,
       ⟨1, 0, "bb".toList, "cc".toList, round4 1⟩,
       ⟨1, 1, "bb".toList, "dd".toList, round4 0⟩] := by
  unfold allPairsPhase
  rw [candPairs_demo]
  rw [if_neg (by decide)]

/-- `C1` witness: two 2-entry lists whose four cross pairs all survive
filtering, with a similarity matrix making the `(0,0)`/`(1,1)`
combination the unique maximizer. -/
theorem generate_task3_pairs_selection_witness :
    ∃ i j, i < j ∧
      j < (normalize_similarities_in_case (allPairsPhase ["aa".toList, "bb".toList] ["cc".toList, "dd".toList]
        (some [[0, 1], [1, 0]]))).length ∧
      comboOk (normalize_similarities_in_case (allPairsPhase ["aa".toList, "bb".toList] ["cc".toList, "dd".toList]
        (some [[0, 1], [1, 0]]))) (i, j) ∧
      (∀ k l, k < l →
        l < (normalize_similarities_in_case (allPairsPhase ["aa".toList, "bb".toList] ["cc".toList, "dd".toList]
        (some [[0, 1], [1, 0]]))).length →
        comboOk (normalize_similarities_in_case (allPairsPhase ["aa".toList, "bb".toList] ["cc".toList, "dd".toList]
        (some [[0, 1], [1, 0]]))) (k, l) →
        comboDiffN (normalize_similarities_in_case (allPairsPhase ["aa".toList, "bb".toList] ["cc".toList, "dd".toList]
        (some [[0, 1], [1, 0]]))) (k, l) ≤
          comboDiffN (normalize_similarities_in_case (allPairsPhase ["aa".toList, "bb".toList] ["cc".toList, "dd".toList]
        (some [[0, 1], [1, 0]]))) (i, j)) ∧
      (∀ k l, k < l →
        l < (normalize_similarities_in_case (allPairsPhase ["aa".toList, "bb".toList] ["cc".toList, "dd".toList]
        (some [[0, 1], [1, 0]]))).length →
        comboOk (normalize_similarities_in_case (allPairsPhase ["aa".toList, "bb".toList] ["cc".toList, "dd".toList]
        (some [[0, 1], [1, 0]]))) (k, l) →
        (k, l) ≠ (i, j) →
        comboDiffN (normalize_similarities_in_case (allPairsPhase ["aa".toList, "bb".toList] ["cc".toList, "dd".toList]
        (some [[0, 1], [1, 0]]))) (k, l) =
          comboDiffN (normalize_similarities_in_case (allPairsPhase ["aa".toList, "bb".toList] ["cc".toList, "dd".toList]
        (some [[0, 1], [1, 0]]))) (i, j) →
        lexLt (i, j) (k, l)) ∧
      generate_task3_pairs ["aa".toList, "bb".toList] ["cc".toList, "dd".toList]
          (some [[0, 1], [1, 0]]) id =
        some [⟨'A',
            ((normalize_similarities_in_case (allPairsPhase ["aa".toList, "bb".toList] ["cc".toList, "dd".toList]
        (some [[0, 1], [1, 0]]))).getD i
              default).predicted,
            ((normalize_similarities_in_case (allPairsPhase ["aa".toList, "bb".toList] ["cc".toList, "dd".toList]
        (some [[0, 1], [1, 0]]))).getD i
              default).ground_truth,
            round4 ((normalize_similarities_in_case (allPairsPhase ["aa".toList, "bb".toList] ["cc".toList, "dd".toList]
        (some [[0, 1], [1, 0]]))).getD i
              default).similarity,
            some ((normalize_similarities_in_case (allPairsPhase ["aa".toList, "bb".toList] ["cc".toList, "dd".toList]
        (some [[0, 1], [1, 0]]))).getD i
              default).simOrig⟩,
          ⟨'B',
            ((normalize_similarities_in_case (allPairsPhase ["aa".toList, "bb".toList] ["cc".toList, "dd".toList]
        (some [[0, 1], [1, 0]]))).getD j
              default).predicted,
            ((normalize_similarities_in_case (allPairsPhase ["aa".toList, "bb".toList] ["cc".toList, "dd".toList]
        (some [[0, 1], [1, 0]]))).getD j
              default).ground_truth,
            round4 ((normalize_similarities_in_case (allPairsPhase ["aa".toList, "bb".toList] ["cc".toList, "dd".toList]
        (some [[0, 1], [1, 0]]))).getD j
              default).similarity,
            some ((normalize_similarities_in_case (allPairsPhase ["aa".toList, "bb".toList] ["cc".toList, "dd".toList]
        (some [[0, 1], [1, 0]]))).getD j
              default).simOrig⟩] := by
  apply generate_task3_pairs_selection ["aa".toList, "bb".toList]
    ["cc".toList, "dd".toList] (some [[0, 1], [1, 0]]) id (by decide) (by decide)
  refine ⟨0, 3, by norm_num, ?_, ?_, ?_⟩
  · rw [allPairsPhase_demo]
    decide
  · rw [allPairsPhase_demo]
    decide
  · rw [allPairsPhase_demo]
    decide

end Scoring
